import Mathlib

/-!
Verification development for the agent orchestration and memory subsystem of
the personal-assistant repository.

The Go source is shallowly embedded: pure functions become Lean functions,
the PostgreSQL-backed memory store becomes explicit state passing over a
record list, machine floats (`float64` scores, Jaccard ratios) are modelled
as rationals, `error` returns become `Except String`, and Go maps become
association lists.  The pgvector cosine-distance operator `<=>` lives inside
PostgreSQL, so it is passed in as an explicit distance-function parameter.
Go map iteration order is unspecified, so functions that range over a map
are parameterised by the iteration order where the order is observable.
-/

namespace PA

/-- Embedding of Go `strings.Contains s sub`: `sub` occurs as a contiguous
substring of `s` (character-level model of Go byte-level search; identical
on the ASCII keyword lists used here). -/
def strContains (s sub : String) : Bool :=
  decide (sub.data <:+: s.data)

/-- Embedding of Go `strings.ToLower` restricted to ASCII: every keyword
and phrase the source compares is ASCII, where Go and this definition
agree.  (Lean's own `String.toLower` is equivalent but does not reduce
inside the kernel, so the map is spelled out at the character level.) -/
def lowerChar (c : Char) : Char :=
  if 65 ≤ c.toNat ∧ c.toNat ≤ 90 then Char.ofNat (c.toNat + 32) else c

/-- Embedding of Go `strings.ToLower` (ASCII case), character by character. -/
def strToLower (s : String) : String := String.mk (s.data.map lowerChar)

/-- Embedding of Go `strings.Fields`: split around runs of whitespace,
dropping empty fragments. -/
def goFields (s : String) : List String :=
  ((s.data.splitOnP Char.isWhitespace).map String.mk).filter (fun w => w ≠ "")

/-- Runtime value as carried by Go `interface{}` after `json.Unmarshal` or
as constructed by callers: the cases distinguished by the type switches in
`validateFieldType` (schema.go), plus `vec` for a Go `[]float32` embedding
vector kept inside metadata maps, and `null` for `nil`. -/
inductive JValue where
  | str (s : String)
  | int (n : Int)
  | int32 (n : Int)
  | int64 (n : Int)
  | float32 (q : ℚ)
  | float64 (q : ℚ)
  | bool (b : Bool)
  | arr (elems : List JValue)
  | obj (fields : List (String × JValue))
  | vec (v : List ℚ)
  | null

/-- A property inside a tool parameter schema (domain.JSONSchemaProperty):
type, description, optional enum, optional items schema, nested properties. -/
inductive JSONSchemaProperty where
  | mk (type : String) (description : String) (enum : List String)
       (items : Option JSONSchemaProperty)
       (properties : List (String × JSONSchemaProperty))

/-- Projection: the declared type of a schema property. -/
def JSONSchemaProperty.type : JSONSchemaProperty → String
  | .mk t _ _ _ _ => t

/-- Projection: the declared enum of a schema property. -/
def JSONSchemaProperty.enum : JSONSchemaProperty → List String
  | .mk _ _ e _ _ => e

/-- Projection: the description of a schema property. -/
def JSONSchemaProperty.description : JSONSchemaProperty → String
  | .mk _ d _ _ _ => d

/-- A tool parameter schema (domain.JSONSchema): object type, named
properties (Go map modelled as an association list) and required names. -/
structure JSONSchema where
  type : String
  properties : List (String × JSONSchemaProperty)
  required : List String

/-- A registered capability (domain.Tool): name, schema, and the invocation
function.  Invocation takes the parsed argument object and yields a result
value or an error string. -/
structure Tool where
  name : String
  schema : JSONSchema
  invoke : List (String × JValue) → Except String JValue

/-- The tool registry (tools.Registry).  The Go struct keeps two maps keyed
by name (`tools`, `schemas`), always populated together by `RegisterTool`;
we keep one association list of tools. -/
structure Registry where
  tools : List Tool

/-- Embedding of `Registry.GetTool`: lookup by name, error when absent. -/
def Registry.getTool (r : Registry) (name : String) : Except String Tool :=
  match r.tools.find? (fun t => t.name = name) with
  | some t => .ok t
  | none => .error s!"tool {name} not found"

/-- Embedding of `Registry.GetSchema`. -/
def Registry.getSchema (r : Registry) (toolName : String) : Except String JSONSchema :=
  match r.tools.find? (fun t => t.name = toolName) with
  | some t => .ok t.schema
  | none => .error s!"schema for tool {toolName} not found"

/-- The `switch schema.Type` block of `validateFieldType` (schema.go lines
104-135): one case per checked type name, anything else unchecked. -/
def typeSwitch (fieldName : String) (value : JValue) (t : String) :
    Except String Unit :=
  match t, value with
  | "string", .str _ => .ok ()
  | "string", _ => .error s!"field \x27{fieldName}\x27 must be a string"
  | "integer", .int _ => .ok ()
  | "integer", .int32 _ => .ok ()
  | "integer", .int64 _ => .ok ()
  | "integer", .float64 _ => .ok ()
  | "integer", _ => .error s!"field \x27{fieldName}\x27 must be an integer"
  | "number", .int _ => .ok ()
  | "number", .int32 _ => .ok ()
  | "number", .int64 _ => .ok ()
  | "number", .float32 _ => .ok ()
  | "number", .float64 _ => .ok ()
  | "number", _ => .error s!"field \x27{fieldName}\x27 must be a number"
  | "boolean", .bool _ => .ok ()
  | "boolean", _ => .error s!"field \x27{fieldName}\x27 must be a boolean"
  | "array", .arr _ => .ok ()
  | "array", _ => .error s!"field \x27{fieldName}\x27 must be an array"
  | "object", .obj _ => .ok ()
  | "object", _ => .error s!"field \x27{fieldName}\x27 must be an object"
  | _, _ => .ok ()

/-- The enum block of `validateFieldType` (schema.go lines 138-150): with a
non-empty enum the value must be one of the enumerated strings; the loop
returns success on the first match and otherwise reports the members. -/
def enumCheck (fieldName : String) (value : JValue) (enum : List String) :
    Except String Unit :=
  if enum.length > 0 then
    match value with
    | .str valueStr =>
      if enum.contains valueStr then .ok ()
      else
        let rendered := String.intercalate " " enum
        .error s!"field \x27{fieldName}\x27 must be one of: [{rendered}]"
    | _ => .error s!"field \x27{fieldName}\x27 with enum constraint must be a string"
  else
    .ok ()

/-- Embedding of `validateFieldType` (schema.go lines 103-153): the type
switch over the declared schema type, then the enum check. -/
def validateFieldType (fieldName : String) (value : JValue)
    (schema : JSONSchemaProperty) : Except String Unit :=
  match typeSwitch fieldName value schema.type with
  | .error e => .error e
  | .ok _ => enumCheck fieldName value schema.enum

/-- The required-field loop of `Registry.ValidateInput` (schema.go lines
79-85): the first required name absent from the input map is the error. -/
def checkRequired (required : List String) (input : List (String × JValue)) :
    Except String Unit :=
  match required with
  | [] => .ok ()
  | f :: rest =>
    if (input.lookup f).isSome then checkRequired rest input
    else .error s!"required field \x27{f}\x27 is missing"

/-- The property loop of `Registry.ValidateInput` (schema.go lines 89-97):
each declared property that is present in the input is type-checked. -/
def checkProperties (props : List (String × JSONSchemaProperty))
    (input : List (String × JValue)) : Except String Unit :=
  match props with
  | [] => .ok ()
  | (fieldName, fieldSchema) :: rest =>
    match input.lookup fieldName with
    | some value =>
      match validateFieldType fieldName value fieldSchema with
      | .ok _ => checkProperties rest input
      | .error e => .error e
    | none => checkProperties rest input

/-- Embedding of `Registry.ValidateInput` applied to a schema already in
hand: required-field check, then per-property type check. -/
def validateInputSchema (schema : JSONSchema) (input : List (String × JValue)) :
    Except String Unit := do
  checkRequired schema.required input
  checkProperties schema.properties input

/-- Embedding of `Registry.ValidateInput` (schema.go lines 72-100): look up
the schema, then validate. -/
def Registry.validateInput (r : Registry) (toolName : String)
    (input : List (String × JValue)) : Except String Unit := do
  let schema ← r.getSchema toolName
  validateInputSchema schema input

/-- Embedding of `Registry.InvokeTool` (schema.go lines 156-170): validate,
fetch the tool, invoke it.  A validation failure is wrapped with the tool
name; a `GetTool` failure or the invocation error is returned unchanged. -/
def Registry.invokeTool (r : Registry) (toolName : String)
    (input : List (String × JValue)) : Except String JValue :=
  match r.validateInput toolName input with
  | .error e => .error s!"validation failed for tool {toolName}: {e}"
  | .ok _ =>
    match r.getTool toolName with
    | .error e => .error e
    | .ok tool => tool.invoke input

/-- The raw argument payload of a model-issued tool call, as seen by
`json.Unmarshal` inside `ExecuteToolCall`: either it parses to an argument
object or unmarshalling fails with a message. -/
inductive RawArgs where
  | parsed (fields : List (String × JValue))
  | malformed (msg : String)

/-- A function call inside a tool call (domain.FunctionCall). -/
structure FunctionCall where
  name : String
  arguments : RawArgs

/-- A model-issued tool call (domain.ToolCall); `function` is a nillable
pointer in Go. -/
structure ToolCall where
  id : String
  type : String
  function : Option FunctionCall

/-- Result of one tool dispatch (domain.ToolInvocationResult). -/
structure ToolInvocationResult where
  toolName : String
  success : Bool
  result : Option JValue
  error : String

/-- Embedding of `Registry.ExecuteToolCall` (schema.go lines 255-288).  The
second component is the Go `error` return value; every return path in the
source produces `nil`, i.e. `none`. -/
def Registry.executeToolCall (r : Registry) (toolCall : ToolCall) :
    ToolInvocationResult × Option String :=
  match toolCall.function with
  | none =>
    ({ toolName := "", success := false, result := none,
       error := "tool call missing function information" }, none)
  | some fn =>
    match fn.arguments with
    | .malformed msg =>
      ({ toolName := fn.name, success := false, result := none,
         error := s!"failed to parse arguments: {msg}" }, none)
    | .parsed args =>
      match r.invokeTool fn.name args with
      | .error e =>
        ({ toolName := fn.name, success := false, result := none,
           error := e }, none)
      | .ok result =>
        ({ toolName := fn.name, success := true, result := some result,
           error := "" }, none)

/-! ## Memory store (vectorstore.PGVectorStore) and RAG pipeline (rag.Pipeline) -/

/-- An item to be stored in memory (domain.MemoryItem). -/
structure MemoryItem where
  kind : String
  text : List Char
  metadata : List (String × JValue)

/-- A search hit (domain.MemoryHit).  `score` is a Go `float64`, modelled
as a rational. -/
structure MemoryHit where
  id : Nat
  kind : String
  text : String
  score : ℚ
  metadata : List (String × JValue)

/-- A persisted row of the `memory_chunks` table (domain.MemoryChunk).
`uuid.New()` values are modelled by a per-store counter, timestamps by an
abstract clock value threaded by the caller. -/
structure Record where
  id : Nat
  tenantID : String
  userID : String
  kind : String
  text : List Char
  embedding : List ℚ
  metadata : List (String × JValue)
  createdAt : Int
  updatedAt : Int

/-- The state of the backing database: the stored rows plus the supply of
fresh ids standing in for `uuid.New()`. -/
structure StoreState where
  records : List Record
  nextId : Nat

/-- Embedding of `PGVectorStore.Upsert` for a single item (part_009 lines
97-164): an item whose metadata lacks a `[]float32` under "embedding" is
skipped with a warning; otherwise a row is inserted under a fresh id with
the metadata minus the embedding key, and the id is returned. -/
def pgUpsertOne (st : StoreState) (tenantID userID : String) (item : MemoryItem)
    (now : Int) : StoreState × List Nat :=
  match item.metadata.lookup "embedding" with
  | some (.vec embedData) =>
    let id := st.nextId
    let metadata := item.metadata.filter (fun kv => kv.1 ≠ "embedding")
    let rec' : Record :=
      { id := id, tenantID := tenantID, userID := userID, kind := item.kind,
        text := item.text, embedding := embedData, metadata := metadata,
        createdAt := now, updatedAt := now }
    ({ records := st.records ++ [rec'], nextId := st.nextId + 1 }, [id])
  | _ => (st, [])

/-- Embedding of `PGVectorStore.Upsert` over a list of items. -/
def pgUpsert (st : StoreState) (tenantID userID : String)
    (items : List MemoryItem) (now : Int) : StoreState × List Nat :=
  match items with
  | [] => (st, [])
  | item :: rest =>
    let (st1, ids1) := pgUpsertOne st tenantID userID item now
    let (st2, ids2) := pgUpsert st1 tenantID userID rest now
    (st2, ids1 ++ ids2)

/-- Embedding of `PGVectorStore.GetByID` (part_009 lines 277-311): a
tenant/user-scoped point query; with no matching row, `QueryRow(...).Scan`
yields pgx.ErrNoRows, wrapped by the store. -/
def pgGetByID (st : StoreState) (tenantID userID : String) (id : Nat) :
    Except String Record :=
  match st.records.find? (fun r =>
      r.tenantID = tenantID ∧ r.userID = userID ∧ r.id = id) with
  | some r => .ok r
  | none => .error "failed to get memory chunk: no rows in result set"

/-- One recognized SET clause of `PGVectorStore.UpdateByID` applied to a
row: only `text`, `metadata`, `kind` and (when the value is a `[]float32`)
`embedding` are recognized; other fields are ignored. -/
def applyUpdateField (r : Record) (field : String) (value : JValue) : Record :=
  match field, value with
  | "text", .str s => { r with text := s.data }
  | "metadata", .obj kvs => { r with metadata := kvs }
  | "kind", .str s => { r with kind := s }
  | "embedding", .vec v => { r with embedding := v }
  | _, _ => r

/-- Whether an update entry contributes a SET clause in `UpdateByID`
(part_009 lines 320-341): the switch recognizes `text`, `metadata`, `kind`,
and `embedding` only when the value type-asserts to `[]float32`. -/
def updateFieldRecognized (field : String) (value : JValue) : Bool :=
  match field, value with
  | "text", _ => true
  | "metadata", _ => true
  | "kind", _ => true
  | "embedding", .vec _ => true
  | _, _ => false

/-- Embedding of `PGVectorStore.UpdateByID` (part_009 lines 314-369): build
the SET clauses; with none, return success without touching the database;
otherwise run one UPDATE scoped to (tenant, user, id).  The source never
inspects `RowsAffected`, so an id matching no row still returns success. -/
def pgUpdateByID (st : StoreState) (tenantID userID : String) (id : Nat)
    (updates : List (String × JValue)) (now : Int) : Except String StoreState :=
  let setParts := updates.filter (fun kv => updateFieldRecognized kv.1 kv.2)
  if setParts.isEmpty then .ok st
  else
    .ok { st with records := st.records.map (fun r =>
      if r.tenantID = tenantID ∧ r.userID = userID ∧ r.id = id then
        { setParts.foldl (fun acc kv => applyUpdateField acc kv.1 kv.2) r
          with updatedAt := now }
      else r) }

/-- Embedding of `PGVectorStore.DeleteByID` (part_009 lines 372-393): one
scoped DELETE; zero affected rows is reported as an error. -/
def pgDeleteByID (st : StoreState) (tenantID userID : String) (id : Nat) :
    Except String StoreState :=
  let remaining := st.records.filter (fun r =>
    ¬(r.tenantID = tenantID ∧ r.userID = userID ∧ r.id = id))
  if remaining.length = st.records.length then .error "memory chunk not found"
  else .ok { st with records := remaining }

/-- Search options (domain.SearchOptions); the kind/tag/metadata filters. -/
structure SearchFilter where
  kinds : List String
  tags : List String
  meta : List (String × String)

/-- Search options (domain.SearchOptions). -/
structure SearchOptions where
  topK : Int
  minScore : ℚ
  filter : Option SearchFilter

/-- Rendering of a metadata value by the SQL `metadata->>k` text extraction
used by the meta-equality filter. -/
def jsonText : JValue → String
  | .str s => s
  | .int n => toString n
  | .int32 n => toString n
  | .int64 n => toString n
  | .bool b => toString b
  | _ => ""

/-- The WHERE clauses of `PGVectorStore.Search` (part_009 lines 186-206)
applied to one row: tenant/user scoping, kind membership, tag overlap and
metadata equality. -/
def searchRowMatches (tenantID userID : String) (f : Option SearchFilter)
    (r : Record) : Bool :=
  r.tenantID = tenantID && r.userID = userID &&
  (match f with
   | none => true
   | some flt =>
     (flt.kinds = [] || flt.kinds.contains r.kind) &&
     (flt.tags = [] ||
       (match r.metadata.lookup "tags" with
        | some (.arr vs) => vs.any (fun v => match v with
            | .str s => flt.tags.contains s
            | _ => false)
        | _ => false)) &&
     flt.meta.all (fun kv =>
       (match r.metadata.lookup kv.1 with
        | some v => jsonText v = kv.2
        | none => false)))

/-- Embedding of `PGVectorStore.Search` (part_009 lines 167-274).  The SQL
score is `1 - (embedding <=> $1)` where `<=>` is the pgvector cosine
distance evaluated by PostgreSQL; that external operator is the `dist`
parameter.  Rows are filtered, floored at `minScore` when it is positive,
ordered by descending score and cut to `topK` when positive. -/
def pgSearch (st : StoreState) (dist : List ℚ → List ℚ → ℚ)
    (tenantID userID : String) (queryEmbedding : List ℚ)
    (opts : SearchOptions) : List MemoryHit :=
  let rows := st.records.filter (searchRowMatches tenantID userID opts.filter)
  let scored := rows.map (fun r =>
    ({ id := r.id, kind := r.kind, text := String.mk r.text,
       score := 1 - dist r.embedding queryEmbedding,
       metadata := r.metadata } : MemoryHit))
  let floored := if opts.minScore > 0 then
      scored.filter (fun h => opts.minScore ≤ h.score)
    else scored
  let ordered := floored.mergeSort (fun a b => b.score ≤ a.score)
  if opts.topK > 0 then ordered.take opts.topK.toNat else ordered

/-! ### rag.Pipeline -/

/-- Go map assignment `m[k] = v` on a metadata map modelled as an
association list: the binding for `k` is replaced. -/
def mapSet (m : List (String × JValue)) (k : String) (v : JValue) :
    List (String × JValue) :=
  (k, v) :: m.filter (fun kv => kv.1 ≠ k)

/-- Pipeline configuration (rag.PipelineConfig). -/
structure PipelineConfig where
  maxContextTokens : Int
  defaultTopK : Int
  defaultMinScore : ℚ
  chunkSize : Nat
  chunkOverlap : Nat
  summarizeThreshold : Int

/-- Embedding of `DefaultPipelineConfig` (part_010 lines 452-461). -/
def DefaultPipelineConfig : PipelineConfig :=
  { maxContextTokens := 2000, defaultTopK := 5, defaultMinScore := 7/10,
    chunkSize := 500, chunkOverlap := 50, summarizeThreshold := 4000 }

/-- One chunk built by the loop body of `Pipeline.chunkMemoryItem`
(part_010 lines 249-273): the text slice `[s, e)` with the parent metadata
plus the chunk bookkeeping keys. -/
def mkChunk (cfg : PipelineConfig) (item : MemoryItem) (text : List Char)
    (s e : Nat) (chunkIndex : Nat) : MemoryItem :=
  { kind := item.kind,
    text := (text.drop s).take (e - s),
    metadata :=
      mapSet (mapSet (mapSet item.metadata
        "chunk_index" (.int chunkIndex))
        "chunk_count" (.int ((text.length + cfg.chunkSize - 1) / cfg.chunkSize)))
        "parent_text_length" (.int text.length) }

/-- Outcome of the chunking loop: a chunk list, or the Go run-time panic
raised by the slice expression `text[i:end]` when `i` has gone negative
(which happens when `ChunkOverlap > ChunkSize`). -/
inductive ChunkOutcome where
  | ok (chunks : List MemoryItem)
  | panic

/-- Fuel-indexed embedding of the `for` loop of `Pipeline.chunkMemoryItem`
(part_010 lines 249-279).  The loop variable `i` is a Go `int`, whose
stride `ChunkSize - ChunkOverlap` may be zero or negative; `none` means the
fuel ran out before the loop finished (in particular, a loop that never
finishes yields `none` at every fuel). -/
def chunkLoopGo (cfg : PipelineConfig) (item : MemoryItem) (text : List Char)
    (chunks : List MemoryItem) (chunkIndex : Nat) (i : Int) :
    Nat → Option ChunkOutcome
  | 0 => none
  | fuel + 1 =>
    if i < (text.length : Int) then
      if i < 0 then some .panic
      else
        let s := i.toNat
        let e := min (s + cfg.chunkSize) text.length
        let chunk := mkChunk cfg item text s e chunkIndex
        if text.length ≤ e then some (.ok (chunks ++ [chunk]))
        else
          chunkLoopGo cfg item text (chunks ++ [chunk]) (chunkIndex + 1)
            (i + (cfg.chunkSize : Int) - (cfg.chunkOverlap : Int)) fuel
    else some (.ok chunks)

/-- Embedding of `Pipeline.chunkMemoryItem` (part_010 lines 240-282).  For
`ChunkOverlap < ChunkSize` the loop runs at most `text.length` iterations,
so fuel `text.length + 1` always suffices; when the Go loop panics or
diverges (see the C10 theorems) no chunk list exists and the fallback `[]`
is returned. -/
def chunkMemoryItem (cfg : PipelineConfig) (item : MemoryItem) :
    List MemoryItem :=
  if item.text.length ≤ cfg.chunkSize then [item]
  else
    match chunkLoopGo cfg item item.text [] 0 0 (item.text.length + 1) with
    | some (.ok cs) => cs
    | _ => []

/-- The item as enriched by `StoreMemory` (part_010 lines 83-88) before
chunking: the parent embedding and the `stored_at` timestamp are written
into the metadata. -/
def enrich (item : MemoryItem) (e0 : List ℚ) (nowStr : String) : MemoryItem :=
  { item with metadata := mapSet (mapSet item.metadata "embedding"
      (JValue.vec e0)) "stored_at" (JValue.str nowStr) }

/-- The per-chunk embedding assignment of `StoreMemory` (part_010 lines
106-111): chunk `i` receives `chunkEmbeddings[i]` when that index exists,
and otherwise keeps the parent embedding already in its metadata. -/
def attachEmb (ces : List (List ℚ)) (i : Nat) (c : MemoryItem) : MemoryItem :=
  match ces[i]? with
  | some v => { c with metadata := mapSet c.metadata "embedding" (JValue.vec v) }
  | none => c

/-- Embedding of `Pipeline.StoreMemory` (part_010 lines 63-135): embed the
text (failing on an error or an empty vector list), attach the embedding
and `stored_at` to the metadata, chunk long texts and re-embed every chunk,
upsert each item individually, and return the first stored id. -/
def storeMemory (embed : List String → Except String (List (List ℚ)))
    (st : StoreState) (cfg : PipelineConfig) (tenantID userID : String)
    (item : MemoryItem) (nowStr : String) (now : Int) :
    Except String (StoreState × Nat) := do
  match embed [String.mk item.text] with
  | .error e => throw s!"failed to generate embedding: {e}"
  | .ok embeddings =>
    match embeddings with
    | [] => throw "no embeddings generated"
    | e0 :: _ =>
      let item1 : MemoryItem := enrich item e0 nowStr
      let items ←
        if cfg.chunkSize < item1.text.length then do
          let chunks := chunkMemoryItem cfg item1
          match embed (chunks.map (fun c => String.mk c.text)) with
          | .error e => throw s!"failed to generate chunk embeddings: {e}"
          | .ok chunkEmbeddings =>
            pure (chunks.mapIdx (attachEmb chunkEmbeddings))
        else
          pure [item1]
      let (st2, ids) := pgUpsert st tenantID userID items now
      match ids with
      | [] => throw "no items were stored"
      | id0 :: _ => pure (st2, id0)

/-- Embedding of `Pipeline.textSimilarity` (part_010 lines 366-407):
Jaccard similarity of the lowercased word sets of the two texts, with the
empty-text special cases of the source. -/
def textSimilarity (text1 text2 : String) : ℚ :=
  let words1 := goFields (strToLower text1)
  let words2 := goFields (strToLower text2)
  if words1 = [] ∧ words2 = [] then 1
  else if words1 = [] ∨ words2 = [] then 0
  else
    let set1 := words1.dedup
    let set2 := words2.dedup
    let intersection := (set1.filter (fun w => set2.contains w)).length
    let union := set1.length + set2.length - intersection
    if union = 0 then 1 else (intersection : ℚ) / (union : ℚ)

/-- Embedding of `Pipeline.deduplicateResults` (part_010 lines 303-326): a
hit is dropped when its text similarity to some already-accepted hit
exceeds 0.9; lists of at most one element are returned unchanged. -/
def dedupAux (unique : List MemoryHit) : List MemoryHit → List MemoryHit
  | [] => unique
  | hit :: rest =>
    if unique.any (fun existing => textSimilarity hit.text existing.text > 9/10)
    then dedupAux unique rest
    else dedupAux (unique ++ [hit]) rest

/-- Embedding of `Pipeline.deduplicateResults` (part_010 lines 303-326). -/
def deduplicateResults (hits : List MemoryHit) : List MemoryHit :=
  if hits.length ≤ 1 then hits else dedupAux [] hits

/-- Embedding of the per-hit body of `Pipeline.applyQueryBoosts` (part_010
lines 329-363).  `parseTime` stands for Go `time.Parse(time.RFC3339, ...)`
(an external library call), `now` for `time.Now()`; ages are in seconds. -/
def boostOne (parseTime : String → Option Int) (now : Int) (queryLower : String)
    (hit : MemoryHit) : MemoryHit :=
  let score1 :=
    if strContains queryLower "recent" || strContains queryLower "latest" then
      match hit.metadata.lookup "created_at" with
      | some (.str timestamp) =>
        match parseTime timestamp with
        | some createdAt =>
          let age := now - createdAt
          if age < 24 * 3600 then hit.score * (12/10)
          else if age < 7 * 24 * 3600 then hit.score * (11/10)
          else hit.score
        | none => hit.score
      | _ => hit.score
    else hit.score
  let score2 :=
    if (strContains queryLower "task" || strContains queryLower "todo") &&
        hit.kind = "task" then score1 * (115/100)
    else score1
  let score3 :=
    if (strContains queryLower "schedule" || strContains queryLower "appointment"
        || strContains queryLower "meeting") && hit.kind = "event" then
      score2 * (115/100)
    else score2
  { hit with score := score3 }

/-- Embedding of `Pipeline.applyQueryBoosts` (part_010 lines 329-363). -/
def applyQueryBoosts (parseTime : String → Option Int) (now : Int)
    (hits : List MemoryHit) (query : String) : List MemoryHit :=
  hits.map (boostOne parseTime now (strToLower query))

/-- Embedding of `Pipeline.postProcessResults` (part_010 lines 285-300). -/
def postProcessResults (parseTime : String → Option Int) (now : Int)
    (hits : List MemoryHit) (query : String) : List MemoryHit :=
  if hits.isEmpty then hits
  else applyQueryBoosts parseTime now (deduplicateResults hits) query

/-- Embedding of `Pipeline.SearchMemory` (part_010 lines 138-181) over the
vector-native backend: embed the query, delegate to the store search, then
post-process.  `embed` is the provider embedding call. -/
def searchMemory (embed : List String → Except String (List (List ℚ)))
    (dist : List ℚ → List ℚ → ℚ) (parseTime : String → Option Int) (now : Int)
    (st : StoreState) (cfg : PipelineConfig) (tenantID userID : String)
    (query : String) (opts : Option SearchOptions) :
    Except String (List MemoryHit) := do
  let opts := opts.getD
    { topK := cfg.defaultTopK, minScore := cfg.defaultMinScore, filter := none }
  match embed [query] with
  | .error e => throw s!"failed to generate query embedding: {e}"
  | .ok embeddings =>
    match embeddings with
    | [] => throw "no embeddings generated for query"
    | e0 :: _ =>
      let hits := pgSearch st dist tenantID userID e0 opts
      pure (postProcessResults parseTime now hits query)

/-! ## Orchestrator (agents.MainOrchestrator) -/

/-- A chat message (domain.ChatMessage). -/
structure ChatMessage where
  role : String
  content : String
  toolCalls : List ToolCall
  toolCallID : String
  name : String

/-- Token usage (domain.TokenUsage). -/
structure TokenUsage where
  promptTokens : Int
  completionTokens : Int
  totalTokens : Int

/-- A completion choice (domain.Choice).  `Message` is a pointer in Go that
every provider populates; the orchestrator dereferences it unconditionally,
so it is embedded as a plain field. -/
structure Choice where
  index : Int
  message : ChatMessage
  finishReason : String

/-- A chat completion response (domain.ChatCompletionResponse). -/
structure ChatResponse where
  id : String
  choices : List Choice
  usage : Option TokenUsage

/-- A tool function definition sent to the LLM (domain.ToolFunction); the
`parameters` map is a JSON-shaped value. -/
structure ToolFunctionDef where
  name : String
  description : String
  parameters : JValue

/-- A tool definition sent to the LLM (domain.ToolDefinition). -/
structure ToolDefinition where
  type : String
  function : Option ToolFunctionDef

/-- A chat completion request (domain.ChatCompletionRequest). -/
structure ChatCompletionRequest where
  messages : List ChatMessage
  tools : List ToolDefinition
  toolChoice : String
  maxTokens : Int
  temperature : ℚ

/-- A value inside an `AgentResponse` metadata map. -/
inductive MetaValue where
  | str (s : String)
  | int (n : Int)
  | results (rs : List ToolInvocationResult)
  | usage (u : Option TokenUsage)

/-- An agent response (domain.AgentResponse). -/
structure AgentResponse where
  text : String
  metadata : List (String × MetaValue)

/-- Embedding of the `IntentKeywords` map (system_prompts.go lines
279-286), listed in source order.  Go map iteration order is unspecified,
so `detectIntent` takes the order as a parameter ranging over the
permutations of this list. -/
def IntentKeywords : List (String × List String) :=
  [("memory_store",
     ["remember", "save", "store", "note", "write down", "keep track", "record"]),
   ("memory_search",
     ["find", "search", "look for", "recall", "what did", "do I have", "show me"]),
   ("memory_update", ["change", "update", "modify", "edit", "correct", "fix"]),
   ("api_call", ["weather", "call", "get data", "check", "fetch"]),
   ("schedule", ["remind me", "schedule", "set reminder", "notify me"]),
   ("conversational", ["hello", "hi", "how are you", "thanks", "thank you", "bye"])]

/-- Embedding of `DetectIntent` (system_prompts.go lines 289-303): the
first entry of the iteration (in the order the Go runtime happens to give)
with a keyword contained in the lowercased text wins; otherwise the default
is "conversational". -/
def detectIntent (order : List (String × List String)) (text : String) : String :=
  let t := strToLower text
  match order.find? (fun p => p.2.any (fun keyword => strContains t keyword)) with
  | some p => p.1
  | none => "conversational"

/-- The fixed greeting/acknowledgment phrase list of
`MainOrchestrator.requiresTools` (system_prompts.go lines 534-538). -/
def conversationalPhrases : List String :=
  ["hello", "hi", "hey", "good morning", "good afternoon", "good evening",
   "how are you", "what\x27s up", "thanks", "thank you", "bye", "goodbye",
   "ok", "okay", "sure", "alright", "got it", "understood"]

/-- The tool-requiring intents of `MainOrchestrator.requiresTools`. -/
def toolRequiredIntents : List String :=
  ["memory_store", "memory_search", "memory_update", "api_call", "schedule"]

/-- Embedding of `MainOrchestrator.requiresTools` (system_prompts.go lines
526-560). -/
def requiresTools (text intent : String) : Bool :=
  if intent = "conversational" then false
  else
    let lowerText := strToLower text
    if conversationalPhrases.any (fun phrase =>
        strContains lowerText phrase && (goFields text).length ≤ 3) then false
    else if toolRequiredIntents.contains intent then true
    else (goFields text).length > 8

/-- System prompt configuration (agents.SystemPromptConfig). -/
structure SystemPromptConfig where
  tenantName : String
  userName : String
  availableTools : List String

/-- A memory context item (agents.MemoryContextItem); `createdAt` is an
abstract clock value. -/
structure MemoryContextItem where
  kind : String
  text : String
  score : ℚ
  createdAt : Int

/-- Embedding of `GetMainOrchestratorPrompt` (system_prompts.go lines
19-130).  The long fixed instruction text is irrelevant to every verified
property and is abbreviated to a marker; what is kept is the structure the
source computes: interpolated time/user/tenant, then the per-tool lines
appended in `AvailableTools` order. -/
def getMainOrchestratorPrompt (currentTime : String)
    (config : SystemPromptConfig) : String :=
  let prompt := s!"You are a helpful personal assistant ... Current time: {currentTime} ... User: {config.userName} ... Tenant: {config.tenantName} ... Available Tools"
  let prompt :=
    if config.availableTools.length > 0 then
      config.availableTools.foldl (fun acc tool =>
        acc ++ (match tool with
          | "upsert_item" => "- **upsert_item**: Store new information (notes, tasks, events)\n"
          | "search" => "- **search**: Find relevant information from memory\n"
          | "get_by_id" => "- **get_by_id**: Retrieve specific memory items\n"
          | "update_item" => "- **update_item**: Modify existing memory items\n"
          | "call_api" => "- **call_api**: Make external API calls to configured services\n"
          | "schedule_reminder" => "- **schedule_reminder**: Schedule future reminders\n"
          | _ => ""))
        (prompt ++ "\n\nYou have access to the following tools:\n")
    else prompt
  prompt ++ "\n\n## Important Reminders ..."

/-- Embedding of `BuildContextualPrompt` (system_prompts.go lines 252-276);
Route always passes `nil` tool results, so only the memory block matters. -/
def buildContextualPrompt (currentTime : String) (config : SystemPromptConfig)
    (memoryItems : List MemoryContextItem) : String :=
  let prompt := getMainOrchestratorPrompt currentTime config
  if memoryItems.length > 0 then
    memoryItems.foldl (fun acc item =>
        acc ++ s!"- {item.kind}: {item.text} (score: {item.score})\n")
      (prompt ++ "\n## Relevant Memory Context\n")
  else prompt

/-- Orchestrator configuration (agents.OrchestratorConfig).  `MaxToolCalls`
is a Go `int`; configurations are non-negative, and a negative value would
behave exactly like `0` in the `for` condition, so it is a `Nat`. -/
structure OrchestratorConfig where
  maxTokens : Int
  temperature : ℚ
  maxToolCalls : Nat
  enableRAG : Bool
  ragTopK : Int
  ragMinScore : ℚ
  contextTokens : Int
  summarizeEnabled : Bool

/-- Embedding of `DefaultOrchestratorConfig` (system_prompts.go lines
821-832). -/
def DefaultOrchestratorConfig : OrchestratorConfig :=
  { maxTokens := 500, temperature := 7/10, maxToolCalls := 3,
    enableRAG := true, ragTopK := 5, ragMinScore := 7/10,
    contextTokens := 2000, summarizeEnabled := true }

mutual

/-- Rendering by Go `json.Marshal` of a runtime value, used for successful
non-string tool results fed back into the transcript (string escaping
elided; no verified property inspects this text). -/
def jsonRender : JValue → String
  | .str s => "\"" ++ s ++ "\""
  | .int n => toString n
  | .int32 n => toString n
  | .int64 n => toString n
  | .float32 q => toString q
  | .float64 q => toString q
  | .bool b => toString b
  | .arr xs => "[" ++ jsonRenderElems xs ++ "]"
  | .obj kvs => "\x7b" ++ jsonRenderFields kvs ++ "\x7d"
  | .vec v => "[" ++ String.intercalate "," (v.map (fun q => toString q)) ++ "]"
  | .null => "null"

def jsonRenderElems : List JValue → String
  | [] => ""
  | [x] => jsonRender x
  | x :: xs => jsonRender x ++ "," ++ jsonRenderElems xs

def jsonRenderFields : List (String × JValue) → String
  | [] => ""
  | [(k, v)] => "\"" ++ k ++ "\":" ++ jsonRender v
  | (k, v) :: kvs => "\"" ++ k ++ "\":" ++ jsonRender v ++ "," ++ jsonRenderFields kvs

end

/-- The tool-result content computation of `handleWithTools`
(system_prompts.go lines 689-699): a successful string result verbatim, a
successful non-string result JSON-marshalled, a failure as an annotated
error string. -/
def toolResultContent (result : ToolInvocationResult) : String :=
  if result.success then
    match result.result with
    | some (.str resultStr) => resultStr
    | some v => jsonRender v
    | none => "null"
  else s!"Error: {result.error}"

/-- The per-call dispatch of `handleWithTools` (system_prompts.go lines
671-684): `ExecuteToolCall` plus the fallback that would wrap a hard error
into a failed result (dead code, since `ExecuteToolCall` never returns a
hard error). -/
def dispatchToolCall (reg : Registry) (toolCall : ToolCall) :
    ToolInvocationResult :=
  match reg.executeToolCall toolCall with
  | (result, none) => result
  | (_, some e) =>
    { toolName := (match toolCall.function with | some f => f.name | none => ""),
      success := false, result := none, error := e }

/-- The tool-result transcript message appended by `handleWithTools`
(system_prompts.go lines 701-706).  (With a nil `Function` the Go source
would panic reading `toolCall.Function.Name`; that case is outside every
claim and modelled as the empty name.) -/
def toolCallMessage (reg : Registry) (toolCall : ToolCall) : ChatMessage :=
  { role := "tool",
    content := toolResultContent (dispatchToolCall reg toolCall),
    toolCalls := [], toolCallID := toolCall.id,
    name := (match toolCall.function with | some f => f.name | none => "") }

/-- Instrumented outcome of the tool loop: the returned value (or error)
exactly as built by the source, plus three observations of the loop's
actions — the number of chat completion calls performed, the list of every
tool invocation result recorded, and the final transcript. -/
structure LoopOut where
  result : Except String AgentResponse
  calls : Nat
  log : List ToolInvocationResult
  transcript : List ChatMessage

/-- Embedding of the `for` loop of `MainOrchestrator.handleWithTools`
(system_prompts.go lines 633-719), by recursion on the remaining
iterations (`remaining = maxToolCalls - iteration`). -/
def handleWithToolsLoop (chat : ChatCompletionRequest → Except String ChatResponse)
    (reg : Registry) (llmTools : List ToolDefinition) (cfg : OrchestratorConfig)
    (messages : List ChatMessage) (allToolResults : List ToolInvocationResult)
    (iteration : Nat) : Nat → LoopOut
  | 0 =>
    { result := .ok
        { text := "I was able to process your request partially, but reached the maximum number of tool calls allowed.",
          metadata := [("type", .str "tool_assisted_partial"),
                       ("max_iterations", .int cfg.maxToolCalls),
                       ("tool_results", .results allToolResults),
                       ("warning", .str "reached_max_tool_calls")] },
      calls := 0, log := allToolResults, transcript := messages }
  | remaining + 1 =>
    match chat { messages := messages, tools := llmTools, toolChoice := "auto",
                 maxTokens := cfg.maxTokens, temperature := cfg.temperature } with
    | .error e =>
      { result := .error s!"LLM chat failed on iteration {iteration}: {e}",
        calls := 1, log := allToolResults, transcript := messages }
    | .ok resp =>
      match resp.choices with
      | [] =>
        { result := .error "no response choices from LLM",
          calls := 1, log := allToolResults, transcript := messages }
      | choice :: _ =>
        let messages1 := messages ++ [choice.message]
        if choice.message.toolCalls.isEmpty then
          { result := .ok
              { text := choice.message.content,
                metadata := [("type", .str "tool_assisted"),
                             ("iterations", .int (iteration + 1)),
                             ("tool_results", .results allToolResults),
                             ("token_usage", .usage resp.usage)] },
            calls := 1, log := allToolResults, transcript := messages1 }
        else
          let newResults := choice.message.toolCalls.map (dispatchToolCall reg)
          let toolMessages := choice.message.toolCalls.map (toolCallMessage reg)
          let out := handleWithToolsLoop chat reg llmTools cfg
            (messages1 ++ toolMessages) (allToolResults ++ newResults)
            (iteration + 1) remaining
          { out with calls := out.calls + 1 }

mutual

/-- Embedding of the orchestrator's `convertPropertySchema`
(system_prompts.go lines 792-818). -/
def convertPropertySchemaLLM : JSONSchemaProperty → JValue
  | .mk t d e items props =>
    .obj ([("type", .str t)] ++
      (if d ≠ "" then [("description", .str d)] else []) ++
      (if e.length > 0 then [("enum", .arr (e.map (fun s => .str s)))] else []) ++
      (match items with
       | some item => [("items", convertPropertySchemaLLM item)]
       | none => []) ++
      (if props.length > 0 then
        [("properties", .obj (convertPropertiesLLM props))]
       else []))

def convertPropertiesLLM :
    List (String × JSONSchemaProperty) → List (String × JValue)
  | [] => []
  | (k, p) :: rest => (k, convertPropertySchemaLLM p) :: convertPropertiesLLM rest

end

/-- Embedding of the orchestrator's `convertSchemaToParameters`
(system_prompts.go lines 771-789). -/
def convertSchemaToParametersLLM (schema : JSONSchema) : JValue :=
  .obj ([("type", .str "object")] ++
    (if schema.properties.length > 0 then
      [("properties", .obj (schema.properties.map (fun p =>
        (p.1, convertPropertySchemaLLM p.2))))]
     else []) ++
    (if schema.required.length > 0 then
      [("required", .arr (schema.required.map (fun s => .str s)))]
     else []))

/-- Embedding of the orchestrator's `getToolDescription`
(system_prompts.go lines 749-768). -/
def getToolDescriptionLLM (tool : Tool) : String :=
  match tool.name with
  | "upsert_item" => "Store or update information in memory (notes, tasks, events)"
  | "search" => "Search through stored memories using semantic similarity"
  | "get_by_id" => "Retrieve a specific memory item by its ID"
  | "update_item" => "Update an existing memory item"
  | "call_api" => "Make HTTP API calls to external services"
  | "schedule_reminder" => "Schedule future reminders"
  | _ => s!"Tool: {tool.name}"

/-- Embedding of `convertToolsForLLM` (system_prompts.go lines 733-746). -/
def convertToolsForLLM (tools : List Tool) : List ToolDefinition :=
  tools.map (fun tool =>
    { type := "function",
      function := some
        { name := tool.name, description := getToolDescriptionLLM tool,
          parameters := convertSchemaToParametersLLM tool.schema } })

/-- The system+user transcript seed shared by both orchestrator handlers
(system_prompts.go lines 615-624 and 564-573). -/
def initialMessages (systemPrompt userMessage : String) : List ChatMessage :=
  [{ role := "system", content := systemPrompt, toolCalls := [],
     toolCallID := "", name := "" },
   { role := "user", content := userMessage, toolCalls := [],
     toolCallID := "", name := "" }]

/-- Embedding of `MainOrchestrator.handleWithTools` (system_prompts.go
lines 614-720): seed the transcript, render the tenant's tools
(`GetToolsForTenant` returns every registered tool), and run the loop for
up to `MaxToolCalls` rounds. -/
def handleWithTools (chat : ChatCompletionRequest → Except String ChatResponse)
    (reg : Registry) (cfg : OrchestratorConfig)
    (systemPrompt userMessage : String) : LoopOut :=
  handleWithToolsLoop chat reg (convertToolsForLLM reg.tools) cfg
    (initialMessages systemPrompt userMessage) [] 0 cfg.maxToolCalls

/-- Embedding of `MainOrchestrator.handleConversationalMessage`
(system_prompts.go lines 563-611). -/
def handleConversationalMessage
    (chat : ChatCompletionRequest → Except String ChatResponse)
    (cfg : OrchestratorConfig) (systemPrompt userMessage : String)
    (memoryContext : List MemoryContextItem) : Except String AgentResponse :=
  let base : List ChatMessage := initialMessages systemPrompt userMessage
  let contextMsg := memoryContext.foldl
    (fun acc item => acc ++ s!"- {item.kind}: {item.text}\n")
    "Here\x27s relevant context from your memory:\n"
  let messages :=
    if memoryContext.length > 0 then
      base ++ [{ role := "system", content := contextMsg, toolCalls := [],
                 toolCallID := "", name := "" }]
    else base
  match chat { messages := messages, tools := [], toolChoice := "",
               maxTokens := cfg.maxTokens, temperature := cfg.temperature } with
  | .error e => .error s!"LLM chat failed: {e}"
  | .ok resp =>
    match resp.choices with
    | [] => .error "no response choices from LLM"
    | choice :: _ =>
      .ok { text := choice.message.content,
            metadata := [("type", .str "conversational"),
                         ("memory_context", .int memoryContext.length),
                         ("token_usage", .usage resp.usage)] }

/-- Embedding of `MainOrchestrator.Route` (system_prompts.go lines
446-523).  `ragSearch` is the outcome of the `ragPipeline.SearchMemory`
collaborator call for the message text; a failed search is logged by the
source as a warning and processing continues with no memory context. -/
def route (order : List (String × List String)) (cfg : OrchestratorConfig)
    (reg : Registry) (chat : ChatCompletionRequest → Except String ChatResponse)
    (ragSearch : Except String (List MemoryHit)) (now : Int)
    (currentTime : String) (tenantID userPhone messageText : String) :
    Except String AgentResponse :=
  let intent := detectIntent order messageText
  let memoryContext : List MemoryContextItem :=
    if cfg.enableRAG then
      match ragSearch with
      | .error _ => []
      | .ok ragHits => ragHits.map (fun hit =>
          { kind := hit.kind, text := hit.text, score := hit.score,
            createdAt := now })
    else []
  let promptConfig : SystemPromptConfig :=
    { tenantName := tenantID, userName := userPhone,
      availableTools := reg.tools.map (fun t => t.name) }
  let systemPrompt := buildContextualPrompt currentTime promptConfig memoryContext
  if ¬ requiresTools messageText intent then
    match handleConversationalMessage chat cfg systemPrompt messageText
        memoryContext with
    | .error e => .error s!"failed to handle conversational message: {e}"
    | .ok response => .ok response
  else
    match (handleWithTools chat reg cfg systemPrompt messageText).result with
    | .error e => .error s!"failed to handle message with tools: {e}"
    | .ok response => .ok response

/-- A second iteration order of the `IntentKeywords` map (the "schedule"
and "memory_update" entries exchanged) — one of the orders the Go runtime,
whose map iteration order is unspecified and varies between runs, may
produce. -/
def IntentKeywordsAlt : List (String × List String) :=
  [("memory_store",
     ["remember", "save", "store", "note", "write down", "keep track", "record"]),
   ("memory_search",
     ["find", "search", "look for", "recall", "what did", "do I have", "show me"]),
   ("schedule", ["remind me", "schedule", "set reminder", "notify me"]),
   ("api_call", ["weather", "call", "get data", "check", "fetch"]),
   ("memory_update", ["change", "update", "modify", "edit", "correct", "fix"]),
   ("conversational", ["hello", "hi", "how are you", "thanks", "thank you", "bye"])]

/-- Spec-side definition (for the refinement claim C2), following the
spec's words: a present property's runtime value matches its declared
schema type (string/integer/number/boolean/array/object); declared types
outside this list constrain nothing.  The integer case mirrors the Go type
switch, which accepts `int`, `int32`, `int64` and `float64`. -/
def specTypeMatches (t : String) (v : JValue) : Bool :=
  match t, v with
  | "string", .str _ => true
  | "string", _ => false
  | "integer", .int _ => true
  | "integer", .int32 _ => true
  | "integer", .int64 _ => true
  | "integer", .float64 _ => true
  | "integer", _ => false
  | "number", .int _ => true
  | "number", .int32 _ => true
  | "number", .int64 _ => true
  | "number", .float32 _ => true
  | "number", .float64 _ => true
  | "number", _ => false
  | "boolean", .bool _ => true
  | "boolean", _ => false
  | "array", .arr _ => true
  | "array", _ => false
  | "object", .obj _ => true
  | "object", _ => false
  | _, _ => true

/-- Spec-side definition (for the refinement claim C2), following the
spec's words: a property whose schema declares an enum must hold a string
value equal to one of the enumerated values. -/
def specEnumOk (ps : JSONSchemaProperty) (v : JValue) : Bool :=
  if ps.enum.length > 0 then
    match v with
    | .str s => ps.enum.contains s
    | _ => false
  else true

/-- The spec-side acceptance predicate of C2: every required property is
present and every present declared property passes the type and enum
checks. -/
def specValidates (schema : JSONSchema) (input : List (String × JValue)) : Prop :=
  (∀ f ∈ schema.required, (input.lookup f).isSome = true) ∧
  (∀ p ∈ schema.properties, ∀ v, input.lookup p.1 = some v →
    specTypeMatches p.2.type v = true ∧ specEnumOk p.2 v = true)

/-- A concrete schema used to evaluate the theorems on sample data: an
object with a required enum-constrained `kind` and a required `text`. -/
def sampleSchema : JSONSchema :=
  { type := "object",
    properties := [("kind", .mk "string" "" ["note", "task"] none []),
                   ("text", .mk "string" "" [] none [])],
    required := ["kind", "text"] }

/-- A concrete one-tool registry used to evaluate the theorems. -/
def sampleRegistry : Registry :=
  { tools := [{ name := "upsert_item", schema := sampleSchema,
                invoke := fun _ => .ok .null }] }

/-- A concrete capability whose invocation always fails, for evaluating
the dispatch-failure theorems. -/
def failingTool : Tool :=
  { name := "call_api",
    schema := { type := "object", properties := [], required := [] },
    invoke := fun _ => .error "API error" }

/-- The sample registry extended with the failing capability. -/
def sampleRegistry2 : Registry := { tools := sampleRegistry.tools ++ [failingTool] }

/-- A model-issued tool call whose raw argument payload is not JSON. -/
def badParseCall : ToolCall :=
  { id := "call-1", type := "function",
    function := some { name := "upsert_item",
                       arguments := .malformed "unexpected end of JSON input" } }

/-- A model-issued tool call whose arguments miss a required field. -/
def missingFieldCall : ToolCall :=
  { id := "call-2", type := "function",
    function := some { name := "upsert_item", arguments := .parsed [] } }

/-- A model-issued tool call whose capability itself fails. -/
def apiErrorCall : ToolCall :=
  { id := "call-3", type := "function",
    function := some { name := "call_api", arguments := .parsed [] } }

/-- The assistant message of a round that requests one tool call. -/
def sampleToolCallMessage : ChatMessage :=
  { role := "assistant", content := "", toolCalls := [badParseCall],
    toolCallID := "", name := "" }

/-- The assistant message of a round that answers with no tool calls. -/
def sampleAnswerMessage : ChatMessage :=
  { role := "assistant", content := "All done!", toolCalls := [],
    toolCallID := "", name := "" }

/-- A chat-completion function that requests the same tool call on every
round — the adversarial model of the tool-loop bound scenarios. -/
def toolCallingChat : ChatCompletionRequest → Except String ChatResponse :=
  fun _ => .ok
    { id := "resp", usage := none,
      choices := [{ index := 0, message := sampleToolCallMessage,
                    finishReason := "tool_calls" }] }

/-- A chat-completion function that answers immediately with no tool
calls. -/
def answeringChat : ChatCompletionRequest → Except String ChatResponse :=
  fun _ => .ok
    { id := "resp", usage := none,
      choices := [{ index := 0, message := sampleAnswerMessage,
                    finishReason := "stop" }] }

/-- A concrete search hit, for evaluating the post-processing theorems. -/
def hitA : MemoryHit :=
  { id := 1, kind := "note", text := "buy milk tomorrow", score := 9/10,
    metadata := [] }

/-- A second hit with the same text as `hitA` (near-identical, Jaccard
similarity 1) but a different score and id. -/
def hitB : MemoryHit :=
  { id := 2, kind := "note", text := "buy milk tomorrow", score := 8/10,
    metadata := [] }

/-- A concrete stored row for evaluating the search pipeline. -/
def sampleRecord : Record :=
  { id := 7, tenantID := "t1", userID := "u1", kind := "task",
    text := "buy milk".data, embedding := [1], metadata := [],
    createdAt := 0, updatedAt := 0 }

/-- A concrete store holding `sampleRecord`. -/
def sampleStore : StoreState := { records := [sampleRecord], nextId := 8 }

/-- A concrete distance function standing for the pgvector cosine-distance
operator: constant 1/25 (the cosine distance of two unit vectors at angle
arccos 0.96, e.g. (3,4)/5 and (4,3)/5). -/
def constDist : List ℚ → List ℚ → ℚ := fun _ _ => 1/25

/-- A concrete embedding function: one unit vector per input. -/
def sampleEmbed : List String → Except String (List (List ℚ)) :=
  fun _ => .ok [[1]]

/-- Concrete search options with the default minimum score. -/
def sampleOpts : SearchOptions := { topK := 5, minScore := 7/10, filter := none }

/-- A timestamp parser that never parses (no `created_at` in play). -/
def noParse : String → Option Int := fun _ => none

/-- A chat-completion function that always fails — the model of a
completion-provider outage. -/
def failingChat : ChatCompletionRequest → Except String ChatResponse :=
  fun _ => .error "completion provider down"

/-- Concrete search options with no minimum-score floor, for evaluating the
search pipeline end to end. -/
def cexOpts : SearchOptions := { topK := 5, minScore := 0, filter := none }

/-- The raw (pre-boost) hit produced by searching `sampleStore` with the
constant distance `constDist`. -/
def cexScored : MemoryHit :=
  { id := 7, kind := "task", text := "buy milk",
    score := 1 - constDist [1] [1], metadata := [] }

/-- The loop stride of `chunkMemoryItem`: `ChunkSize - ChunkOverlap` (a Go
`int` subtraction; the Nat form is used only where the stride is
nonnegative). -/
def strideOf (cfg : PipelineConfig) : Nat := cfg.chunkSize - cfg.chunkOverlap

/-- The chunk produced by iteration `j` of the `chunkMemoryItem` loop when
the stride is positive: the window starting at `j · stride`. -/
def chunkAt (cfg : PipelineConfig) (item : MemoryItem) (text : List Char)
    (j : Nat) : MemoryItem :=
  mkChunk cfg item text (j * strideOf cfg)
    (min (j * strideOf cfg + cfg.chunkSize) text.length) j

/-- The embedding vector carried by an item's metadata (`[]` when absent);
used to describe the rows written by `Upsert`. -/
def embVec (it : MemoryItem) : List ℚ :=
  match it.metadata.lookup "embedding" with
  | some (JValue.vec v) => v
  | _ => []

/-- The rows written by `Upsert` for a list of items that all carry an
embedding: one row per item, ids counting up from `base`. -/
def upsRecords (tenantID userID : String) (now : Int) (base : Nat) :
    List MemoryItem → List Record
  | [] => []
  | it :: rest =>
    { id := base, tenantID := tenantID, userID := userID, kind := it.kind,
      text := it.text, embedding := embVec it,
      metadata := it.metadata.filter (fun kv => kv.1 ≠ "embedding"),
      createdAt := now, updatedAt := now }
      :: upsRecords tenantID userID now (base + 1) rest

/-- The ids returned by `Upsert` for a list of embedded items: consecutive
from `base`. -/
def upsIds (base : Nat) : List MemoryItem → List Nat
  | [] => []
  | _ :: rest => base :: upsIds (base + 1) rest

/-- A small pipeline configuration (chunk size 2, overlap 1) for concrete
chunking runs. -/
def cfg7 : PipelineConfig :=
  { maxContextTokens := 0, defaultTopK := 5, defaultMinScore := 0,
    chunkSize := 2, chunkOverlap := 1, summarizeThreshold := 0 }

/-- A pipeline configuration with `ChunkOverlap = ChunkSize` (zero stride). -/
def eqChunkCfg : PipelineConfig :=
  { maxContextTokens := 0, defaultTopK := 5, defaultMinScore := 0,
    chunkSize := 2, chunkOverlap := 2, summarizeThreshold := 0 }

/-- A pipeline configuration with `ChunkOverlap > ChunkSize` (negative
stride). -/
def cexChunkCfg : PipelineConfig :=
  { maxContextTokens := 0, defaultTopK := 5, defaultMinScore := 0,
    chunkSize := 2, chunkOverlap := 3, summarizeThreshold := 0 }

/-- A concrete memory item whose text is longer than the small chunk
sizes above. -/
def item7 : MemoryItem := { kind := "note", text := "abcd".data, metadata := [] }

/-! ## Theorems -/

/-- Auxiliary: a record outside the (tenant, user, id) scope of a query is
not matched by the scoping predicate. -/
theorem scope_pred_false {r : Record} {tenantID userID : String} {id : Nat}
    (h : ¬(r.tenantID = tenantID ∧ r.userID = userID ∧ r.id = id)) :
    (decide (r.tenantID = tenantID ∧ r.userID = userID ∧ r.id = id)) = false := by
  simpa using h

/-- C5 (counterexample): on a store with no records at all, `UpdateByID`
with a proper `text` update on id 7 reports success (the source never
inspects `RowsAffected`), contradicting the claim that each of `GetByID`,
`UpdateByID`, `DeleteByID` fails with NotFound on a missing id. -/
theorem C5_update_missing_id_counterexample :
    pgUpdateByID { records := [], nextId := 0 } "tenant1" "user1" 7
      [("text", .str "new text")] 0 = .ok { records := [], nextId := 0 } := by
  rfl

/-- C5 (amended): for every store state and every id with no record in the
given (tenant, user) scope, `GetByID` fails (the pgx no-rows scan error)
and `DeleteByID` fails with the not-found error, but `UpdateByID` — for
every update map — reports success and leaves the store unchanged. -/
theorem C5_missing_id_behaviour (st : StoreState) (tenantID userID : String)
    (id : Nat)
    (h : ∀ r ∈ st.records, ¬(r.tenantID = tenantID ∧ r.userID = userID ∧ r.id = id)) :
    pgGetByID st tenantID userID id =
      .error "failed to get memory chunk: no rows in result set" ∧
    pgDeleteByID st tenantID userID id = .error "memory chunk not found" ∧
    ∀ updates now, pgUpdateByID st tenantID userID id updates now = .ok st := by
  refine ⟨?_, ?_, ?_⟩
  · unfold pgGetByID
    rw [List.find?_eq_none.mpr]
    intro r hr
    simpa using h r hr
  · unfold pgDeleteByID
    have hfilter : st.records.filter (fun r =>
        ¬(r.tenantID = tenantID ∧ r.userID = userID ∧ r.id = id)) = st.records := by
      apply List.filter_eq_self.mpr
      intro r hr
      simp only [decide_eq_true_eq]
      exact h r hr
    rw [hfilter, if_pos rfl]
  · intro updates now
    unfold pgUpdateByID
    have hmap : st.records.map (fun r =>
        if r.tenantID = tenantID ∧ r.userID = userID ∧ r.id = id then
          { (updates.filter (fun kv => updateFieldRecognized kv.1 kv.2)).foldl
              (fun acc kv => applyUpdateField acc kv.1 kv.2) r with updatedAt := now }
        else r) = st.records := by
      conv_rhs => rw [← List.map_id st.records]
      apply List.map_congr_left
      intro r hr
      rw [if_neg (h r hr)]
      rfl
    by_cases hset : (updates.filter (fun kv => updateFieldRecognized kv.1 kv.2)).isEmpty
    · simp only [hset, if_true]
    · simp only [hset, if_false, Bool.false_eq_true, hmap]

/-- C5 (witness): the amended behaviour evaluated on the empty store. -/
theorem C5_missing_id_witness :
    (∀ r ∈ ({ records := [], nextId := 0 } : StoreState).records,
      ¬(r.tenantID = "t" ∧ r.userID = "u" ∧ r.id = 3)) ∧
    (pgGetByID { records := [], nextId := 0 } "t" "u" 3 =
      .error "failed to get memory chunk: no rows in result set" ∧
     pgDeleteByID { records := [], nextId := 0 } "t" "u" 3 =
      .error "memory chunk not found" ∧
     ∀ updates now, pgUpdateByID { records := [], nextId := 0 } "t" "u" 3 updates now =
      .ok { records := [], nextId := 0 }) := by
  refine ⟨by simp, C5_missing_id_behaviour _ "t" "u" 3 (by simp)⟩

/-- C9 (counterexample): `DetectIntent` ranges over the Go map
`IntentKeywords`, whose iteration order is unspecified; on the text
"update schedule" (keywords of two intents) two legitimate iteration
orders — both permutations of the map entries — give different intents,
so the classifier is not a deterministic function of the text. -/
theorem C9_detect_intent_counterexample :
    IntentKeywordsAlt.Perm IntentKeywords ∧
    detectIntent IntentKeywords "update schedule" = "memory_update" ∧
    detectIntent IntentKeywordsAlt "update schedule" = "schedule" := by
  refine ⟨by decide, by decide, by decide⟩

/-- C9 (amended): `DetectIntent` is deterministic only relative to the map
iteration order: for any two iteration orders (permutations of the
`IntentKeywords` entries), if at most one intent's keyword set matches the
text then both orders give the same intent, and a text matching no keyword
set always classifies as "conversational"; texts matching keyword sets of
several intents may classify differently under different orders. -/
theorem C9_detect_intent_order (text : String)
    (o1 o2 : List (String × List String))
    (h1 : o1.Perm IntentKeywords) (h2 : o2.Perm IntentKeywords)
    (huniq : ∀ p ∈ IntentKeywords, ∀ q ∈ IntentKeywords,
      (p.2.any (fun k => strContains (strToLower text) k)) = true →
      (q.2.any (fun k => strContains (strToLower text) k)) = true → p = q) :
    detectIntent o1 text = detectIntent o2 text ∧
    ((∀ p ∈ IntentKeywords,
        (p.2.any (fun k => strContains (strToLower text) k)) = false) →
      detectIntent o1 text = "conversational") := by
  have key : ∀ o : List (String × List String), o.Perm IntentKeywords →
      detectIntent o text = detectIntent IntentKeywords text := by
    intro o ho
    unfold detectIntent
    by_cases hex : ∃ p ∈ IntentKeywords,
        (p.2.any (fun k => strContains (strToLower text) k)) = true
    · obtain ⟨p0, hp0mem, hp0⟩ := hex
      have hso : (o.find? (fun p =>
          p.2.any (fun k => strContains (strToLower text) k))).isSome := by
        rw [List.find?_isSome]
        exact ⟨p0, ho.mem_iff.mpr hp0mem, hp0⟩
      have hsk : (IntentKeywords.find? (fun p =>
          p.2.any (fun k => strContains (strToLower text) k))).isSome := by
        rw [List.find?_isSome]
        exact ⟨p0, hp0mem, hp0⟩
      obtain ⟨x, hx⟩ := Option.isSome_iff_exists.mp hso
      obtain ⟨y, hy⟩ := Option.isSome_iff_exists.mp hsk
      have hxI : x ∈ IntentKeywords :=
        ho.mem_iff.mp (List.mem_of_find?_eq_some hx)
      have hyI : y ∈ IntentKeywords := List.mem_of_find?_eq_some hy
      have hxp := List.find?_some hx
      have hyp := List.find?_some hy
      have : x = y := huniq x hxI y hyI hxp hyp
      simp only [hx, hy, this]
    · push_neg at hex
      have hnone : ∀ (l : List (String × List String)), l.Perm IntentKeywords →
          l.find? (fun p => p.2.any (fun k => strContains (strToLower text) k))
            = none := by
        intro l hl
        rw [List.find?_eq_none]
        intro p hp
        have := hex p (hl.mem_iff.mp hp)
        simp [this]
      simp only [hnone o ho, hnone IntentKeywords (List.Perm.refl _)]
  refine ⟨(key o1 h1).trans (key o2 h2).symm, ?_⟩
  intro hnomatch
  rw [key o1 h1]
  unfold detectIntent
  have : IntentKeywords.find? (fun p =>
      p.2.any (fun k => strContains (strToLower text) k)) = none := by
    rw [List.find?_eq_none]
    intro p hp
    simp [hnomatch p hp]
  simp only [this]

/-- C9 (witness): the amended determinism evaluated on the text "hello",
which matches only the conversational keyword set, under the source order
and the exchanged order. -/
theorem C9_detect_intent_order_witness :
    IntentKeywords.Perm IntentKeywords ∧ IntentKeywordsAlt.Perm IntentKeywords ∧
    (∀ p ∈ IntentKeywords, ∀ q ∈ IntentKeywords,
      (p.2.any (fun k => strContains (strToLower "hello") k)) = true →
      (q.2.any (fun k => strContains (strToLower "hello") k)) = true → p = q) ∧
    detectIntent IntentKeywords "hello" = detectIntent IntentKeywordsAlt "hello" := by
  refine ⟨List.Perm.refl _, by decide, by decide, ?_⟩
  exact (C9_detect_intent_order "hello" IntentKeywords IntentKeywordsAlt
    (List.Perm.refl _) (by decide) (by decide)).1

/-- Auxiliary: the `switch schema.Type` block accepts exactly the values
accepted by the spec-side type predicate. -/
theorem typeSwitch_ok_iff (f : String) (v : JValue) (t : String) :
    typeSwitch f v t = .ok () ↔ specTypeMatches t v = true := by
  unfold typeSwitch specTypeMatches
  split <;> simp

/-- Auxiliary: the enum block accepts exactly the values accepted by the
spec-side enum predicate. -/
theorem enumCheck_ok_iff (f : String) (v : JValue) (ps : JSONSchemaProperty) :
    enumCheck f v ps.enum = .ok () ↔ specEnumOk ps v = true := by
  unfold enumCheck specEnumOk
  by_cases he : ps.enum.length > 0
  · simp only [he, if_true]
    cases v <;> simp
  · simp [he]

/-- Auxiliary: `validateFieldType` accepts exactly the values accepted by
the spec-side type and enum predicates together. -/
theorem validateFieldType_ok_iff (f : String) (v : JValue)
    (ps : JSONSchemaProperty) :
    validateFieldType f v ps = .ok () ↔
      (specTypeMatches ps.type v = true ∧ specEnumOk ps v = true) := by
  unfold validateFieldType
  rcases hts : typeSwitch f v ps.type with e | u
  · have hne : ¬ specTypeMatches ps.type v = true := by
      intro hsp
      have := (typeSwitch_ok_iff f v ps.type).mpr hsp
      rw [hts] at this
      exact Except.noConfusion this
    simp [hne]
  · have hsp : specTypeMatches ps.type v = true :=
      (typeSwitch_ok_iff f v ps.type).mp (by rw [hts])
    simp [hsp, enumCheck_ok_iff f v ps]

/-- Auxiliary: a string occurs in any append of which it is the appended
middle part. -/
theorem strContains_suffix (a f : String) : strContains (a ++ f) f = true := by
  unfold strContains
  rw [decide_eq_true_eq]
  exact ⟨a.data, [], by simp⟩

/-- Auxiliary: containment survives appending on the right. -/
theorem strContains_extend (s f t : String) (h : strContains s f = true) :
    strContains (s ++ t) f = true := by
  unfold strContains at h ⊢
  rw [decide_eq_true_eq] at h ⊢
  exact h.trans ⟨[], t.data, by simp⟩

/-- Auxiliary: every error message of the type switch names the field. -/
theorem typeSwitch_error_contains (f : String) (v : JValue) (t : String)
    (m : String) (h : typeSwitch f v t = .error m) :
    strContains m f = true := by
  unfold typeSwitch at h
  split at h <;>
    (try exact Except.noConfusion h) <;>
    (injection h with h1; subst h1;
     simp only [toString];
     exact strContains_extend _ _ _ (strContains_suffix _ _))

/-- Auxiliary: every error message of the enum block names the field. -/
theorem enumCheck_error_contains (f : String) (v : JValue) (e : List String)
    (m : String) (h : enumCheck f v e = .error m) :
    strContains m f = true := by
  unfold enumCheck at h
  by_cases hlen : e.length > 0
  · rw [if_pos hlen] at h
    split at h
    · split at h
      · exact Except.noConfusion h
      · injection h with h1
        subst h1
        simp only [toString]
        exact strContains_extend _ _ _ (strContains_extend _ _ _
          (strContains_extend _ _ _ (strContains_suffix _ _)))
    · injection h with h1
      subst h1
      simp only [toString]
      exact strContains_extend _ _ _ (strContains_suffix _ _)
  · rw [if_neg hlen] at h
    exact Except.noConfusion h

/-- Auxiliary: every error message of `validateFieldType` names the field. -/
theorem validateFieldType_error_contains (f : String) (v : JValue)
    (ps : JSONSchemaProperty) (m : String)
    (h : validateFieldType f v ps = .error m) : strContains m f = true := by
  unfold validateFieldType at h
  rcases hts : typeSwitch f v ps.type with e | u <;> rw [hts] at h
  · injection h with h1
    subst h1
    exact typeSwitch_error_contains f v ps.type _ hts
  · exact enumCheck_error_contains f v ps.enum m h

/-- Auxiliary: the required-field loop succeeds exactly when every
required name is present. -/
theorem checkRequired_ok_iff (required : List String)
    (input : List (String × JValue)) :
    checkRequired required input = .ok () ↔
      ∀ f ∈ required, (input.lookup f).isSome = true := by
  induction required with
  | nil => simp [checkRequired]
  | cons f rest ih =>
    unfold checkRequired
    by_cases hf : (input.lookup f).isSome = true
    · rw [if_pos hf, ih]
      constructor
      · intro h g hg
        rcases List.mem_cons.mp hg with h1 | h1
        · subst h1; exact hf
        · exact h g h1
      · intro h g hg
        exact h g (List.mem_cons_of_mem f hg)
    · rw [if_neg hf]
      constructor
      · intro h; exact Except.noConfusion h
      · intro h
        exact absurd (h f (List.mem_cons_self f rest)) hf

/-- Auxiliary: a required-loop error is the missing-field message of some
absent required name. -/
theorem checkRequired_error (required : List String)
    (input : List (String × JValue)) (m : String)
    (h : checkRequired required input = .error m) :
    ∃ f ∈ required, input.lookup f = none ∧ strContains m f = true := by
  induction required with
  | nil => exact Except.noConfusion h
  | cons f rest ih =>
    unfold checkRequired at h
    by_cases hf : (input.lookup f).isSome = true
    · rw [if_pos hf] at h
      obtain ⟨g, hg, hnone, hcont⟩ := ih h
      exact ⟨g, List.mem_cons_of_mem f hg, hnone, hcont⟩
    · rw [if_neg hf] at h
      injection h with h1
      subst h1
      refine ⟨f, List.mem_cons_self f rest, Option.not_isSome_iff_eq_none.mp hf, ?_⟩
      simp only [toString]
      exact strContains_extend _ _ _ (strContains_suffix _ _)

/-- Auxiliary: the property loop succeeds exactly when every declared
property present in the input passes `validateFieldType`. -/
theorem checkProperties_ok_iff (props : List (String × JSONSchemaProperty))
    (input : List (String × JValue)) :
    checkProperties props input = .ok () ↔
      ∀ p ∈ props, ∀ v, input.lookup p.1 = some v →
        validateFieldType p.1 v p.2 = .ok () := by
  induction props with
  | nil => simp [checkProperties]
  | cons p rest ih =>
    obtain ⟨fieldName, fieldSchema⟩ := p
    unfold checkProperties
    rcases hl : input.lookup fieldName with _ | v
    · simp only [List.mem_cons]
      constructor
      · intro h q hq
        rcases hq with hq | hq
        · subst hq
          intro w hw
          rw [hl] at hw
          exact Option.noConfusion hw
        · exact (ih.mp h) q hq
      · intro h
        exact ih.mpr (fun q hq => h q (Or.inr hq))
    · rcases hv : validateFieldType fieldName v fieldSchema with e | u
      · simp only [hv]
        constructor
        · intro h
          exact Except.noConfusion h
        · intro h
          have := h (fieldName, fieldSchema) (List.mem_cons_self _ _) v hl
          rw [hv] at this
          exact Except.noConfusion this
      · simp only [hv, List.mem_cons]
        rw [ih]
        constructor
        · intro h q hq
          rcases hq with hq | hq
          · subst hq
            intro w hw
            rw [hl] at hw
            injection hw with hw1
            subst hw1
            exact hv
          · exact h q hq
        · intro h q hq
          exact h q (Or.inr hq)

/-- Auxiliary: a property-loop error comes from some declared property
present in the input that fails `validateFieldType`, and the message names
that property. -/
theorem checkProperties_error (props : List (String × JSONSchemaProperty))
    (input : List (String × JValue)) (m : String)
    (h : checkProperties props input = .error m) :
    ∃ p ∈ props, ∃ v, input.lookup p.1 = some v ∧
      validateFieldType p.1 v p.2 = .error m ∧ strContains m p.1 = true := by
  induction props with
  | nil => exact Except.noConfusion h
  | cons p rest ih =>
    obtain ⟨fieldName, fieldSchema⟩ := p
    unfold checkProperties at h
    rcases hl : input.lookup fieldName with _ | v <;> rw [hl] at h <;>
      dsimp only at h
    · obtain ⟨q, hq, w, hw, hval, hcont⟩ := ih h
      exact ⟨q, List.mem_cons_of_mem _ hq, w, hw, hval, hcont⟩
    · rcases hv : validateFieldType fieldName v fieldSchema with e | u <;>
        rw [hv] at h
      · injection h with h1
        subst h1
        exact ⟨(fieldName, fieldSchema), List.mem_cons_self _ _, v, hl, hv,
          validateFieldType_error_contains _ _ _ _ hv⟩
      · obtain ⟨q, hq, w, hw, hval, hcont⟩ := ih h
        exact ⟨q, List.mem_cons_of_mem _ hq, w, hw, hval, hcont⟩

/-- C2: for every registered capability schema and every argument object,
`ValidateInput` succeeds if and only if every required property is present,
every present declared property's runtime value matches its declared type,
and every enum-constrained property holds one of the enumerated strings;
otherwise it fails with an error message naming an offending field. -/
theorem C2_validate_input (r : Registry) (toolName : String)
    (schema : JSONSchema) (input : List (String × JValue))
    (hreg : r.getSchema toolName = .ok schema) :
    (r.validateInput toolName input = .ok () ↔ specValidates schema input) ∧
    (∀ m, r.validateInput toolName input = .error m →
      ∃ f, strContains m f = true ∧
        ((f ∈ schema.required ∧ input.lookup f = none) ∨
         (∃ ps, (f, ps) ∈ schema.properties ∧ ∃ v, input.lookup f = some v ∧
           ¬(specTypeMatches ps.type v = true ∧ specEnumOk ps v = true)))) := by
  have hval : r.validateInput toolName input = validateInputSchema schema input := by
    unfold Registry.validateInput
    rw [hreg]
    rfl
  rw [hval]
  unfold validateInputSchema specValidates
  simp only [bind, Except.bind]
  rcases hr : checkRequired schema.required input with e | u
  · constructor
    · constructor
      · intro h; exact Except.noConfusion h
      · intro h
        have := (checkRequired_ok_iff schema.required input).mpr h.1
        rw [hr] at this
        exact Except.noConfusion this
    · intro m hm
      injection hm with hm1
      subst hm1
      obtain ⟨f, hf, hnone, hcont⟩ := checkRequired_error _ _ _ hr
      exact ⟨f, hcont, Or.inl ⟨hf, hnone⟩⟩
  · have hreq : ∀ f ∈ schema.required, (input.lookup f).isSome = true :=
      (checkRequired_ok_iff schema.required input).mp (by rw [hr])
    constructor
    · rw [checkProperties_ok_iff]
      constructor
      · intro h
        refine ⟨hreq, fun p hp v hv => ?_⟩
        exact (validateFieldType_ok_iff p.1 v p.2).mp (h p hp v hv)
      · intro h p hp v hv
        exact (validateFieldType_ok_iff p.1 v p.2).mpr (h.2 p hp v hv)
    · intro m hm
      obtain ⟨p, hp, v, hv, hval2, hcont⟩ := checkProperties_error _ _ _ hm
      refine ⟨p.1, hcont, Or.inr ⟨p.2, by simpa using hp, v, hv, ?_⟩⟩
      intro hspec
      have := (validateFieldType_ok_iff p.1 v p.2).mpr hspec
      rw [hval2] at this
      exact Except.noConfusion this

/-- C2 (witness): the characterization evaluated for a concrete one-tool
registry and a passing argument object. -/
theorem C2_validate_input_witness :
    sampleRegistry.getSchema "upsert_item" = .ok sampleSchema ∧
    sampleRegistry.validateInput "upsert_item"
      [("kind", .str "note"), ("text", .str "buy milk")] = .ok () := by
  refine ⟨rfl, ?_⟩
  have h := C2_validate_input sampleRegistry "upsert_item" sampleSchema
    [("kind", .str "note"), ("text", .str "buy milk")] rfl
  refine h.1.mpr ⟨by decide, ?_⟩
  unfold sampleSchema
  intro p hp v hv
  simp only [List.mem_cons, List.not_mem_nil, or_false] at hp
  rcases hp with rfl | rfl
  · have hv2 : some (JValue.str "note") = some v := hv
    injection hv2 with hv3
    subst hv3
    decide
  · have hv2 : some (JValue.str "buy milk") = some v := hv
    injection hv2 with hv3
    subst hv3
    decide

/-- Auxiliary: a string beginning with a non-empty part is non-empty. -/
theorem ne_empty_of_length (s : String) (h : s.length ≠ 0) : s ≠ "" := by
  intro hc
  rw [hc] at h
  exact h rfl

/-- Auxiliary: appending preserves a non-zero length. -/
theorem append_length_ne (a b : String) (ha : a.length ≠ 0) :
    (a ++ b).length ≠ 0 := by
  rw [String.length_append]
  omega

/-- C3: every failing dispatch path — missing function, unparseable
arguments, schema-validation failure, or a capability error — yields a
`ToolInvocationResult` with `success = false` and a non-empty error (the
capability case given its message is non-empty) and a nil Go error; and
the orchestrator loop never aborts on a dispatch failure: it records the
result, appends an "Error: "-annotated tool message, and continues, with
the only loop aborts coming from the chat call itself. -/
theorem C3_dispatch_failures (r : Registry)
    (chat : ChatCompletionRequest → Except String ChatResponse)
    (cfg : OrchestratorConfig) (llmTools : List ToolDefinition) :
    (∀ tc, (r.executeToolCall tc).2 = none) ∧
    (∀ tc fn msg, tc.function = some fn → fn.arguments = .malformed msg →
      (r.executeToolCall tc).1.success = false ∧
      (r.executeToolCall tc).1.error ≠ "") ∧
    (∀ tc fn args e, tc.function = some fn → fn.arguments = .parsed args →
      r.validateInput fn.name args = .error e →
      (r.executeToolCall tc).1.success = false ∧
      (r.executeToolCall tc).1.error ≠ "") ∧
    (∀ tc fn args tool e, tc.function = some fn → fn.arguments = .parsed args →
      r.validateInput fn.name args = .ok () → r.getTool fn.name = .ok tool →
      tool.invoke args = .error e → e ≠ "" →
      (r.executeToolCall tc).1.success = false ∧
      (r.executeToolCall tc).1.error = e) ∧
    (∀ tc, (dispatchToolCall r tc).success = false →
      (toolCallMessage r tc).role = "tool" ∧
      (toolCallMessage r tc).content = "Error: " ++ (dispatchToolCall r tc).error ∧
      (toolCallMessage r tc).toolCallID = tc.id) ∧
    (∀ messages acc iteration remaining resp choice rest,
      chat { messages := messages, tools := llmTools, toolChoice := "auto",
             maxTokens := cfg.maxTokens, temperature := cfg.temperature } = .ok resp →
      resp.choices = choice :: rest → choice.message.toolCalls ≠ [] →
      handleWithToolsLoop chat r llmTools cfg messages acc iteration (remaining + 1) =
        (let out := handleWithToolsLoop chat r llmTools cfg
            ((messages ++ [choice.message]) ++
              choice.message.toolCalls.map (toolCallMessage r))
            (acc ++ choice.message.toolCalls.map (dispatchToolCall r))
            (iteration + 1) remaining
         { out with calls := out.calls + 1 })) ∧
    ((∀ req, ∃ resp c cs, chat req = .ok resp ∧ resp.choices = c :: cs) →
      ∀ messages acc iteration remaining, ∃ response,
        (handleWithToolsLoop chat r llmTools cfg messages acc iteration
          remaining).result = .ok response) := by
  refine ⟨?_, ?_, ?_, ?_, ?_, ?_, ?_⟩
  · intro tc
    unfold Registry.executeToolCall
    split <;> first | rfl | (split <;> first | rfl | (split <;> rfl))
  · intro tc fn msg hfn harg
    unfold Registry.executeToolCall
    simp only [hfn, harg]
    refine ⟨by trivial, ?_⟩
    simp only [toString]
    exact ne_empty_of_length _ (append_length_ne _ _ (append_length_ne _ _
      (by decide)))
  · intro tc fn args e hfn harg hval
    unfold Registry.executeToolCall
    simp only [hfn, harg]
    unfold Registry.invokeTool
    simp only [hval]
    refine ⟨by trivial, ?_⟩
    simp only [toString]
    exact ne_empty_of_length _ (append_length_ne _ _ (append_length_ne _ _
      (append_length_ne _ _ (append_length_ne _ _ (by decide)))))
  · intro tc fn args tool e hfn harg hval htool hinv hne
    unfold Registry.executeToolCall
    simp only [hfn, harg]
    unfold Registry.invokeTool
    simp only [hval, htool, hinv]
    constructor <;> trivial
  · intro tc hfail
    refine ⟨rfl, ?_, rfl⟩
    unfold toolCallMessage toolResultContent
    rw [hfail]
    simp only [Bool.false_eq_true, if_false, toString]
    rw [String.append_empty]
  · intro messages acc iteration remaining resp choice rest hchat hchoices hne
    conv_lhs => unfold handleWithToolsLoop
    simp only [hchat, hchoices]
    have hemp : ¬ (choice.message.toolCalls.isEmpty = true) := by
      rcases hc : choice.message.toolCalls with _ | ⟨a, l⟩
      · exact absurd hc hne
      · simp
    rw [if_neg hemp]
  · intro hall messages acc iteration remaining
    induction remaining generalizing messages acc iteration with
    | zero => exact ⟨_, rfl⟩
    | succ n ih =>
      obtain ⟨resp, c, cs, hchat, hchoices⟩ := hall
        { messages := messages, tools := llmTools, toolChoice := "auto",
          maxTokens := cfg.maxTokens, temperature := cfg.temperature }
      unfold handleWithToolsLoop
      simp only [hchat, hchoices]
      by_cases hemp : c.message.toolCalls.isEmpty = true
      · rw [if_pos hemp]
        exact ⟨_, rfl⟩
      · rw [if_neg hemp]
        obtain ⟨response, hresp⟩ := ih
          ((messages ++ [c.message]) ++ c.message.toolCalls.map (toolCallMessage r))
          (acc ++ c.message.toolCalls.map (dispatchToolCall r)) (iteration + 1)
        exact ⟨response, hresp⟩

/-- C3 (witness): the dispatch-failure guarantees evaluated on a concrete
registry, one unparseable call, one call missing a required field, one
call whose capability fails, and the loop run with an always-tool-calling
model. -/
theorem C3_dispatch_failures_witness :
    (sampleRegistry2.executeToolCall badParseCall).2 = none ∧
    ((sampleRegistry2.executeToolCall badParseCall).1.success = false ∧
     (sampleRegistry2.executeToolCall badParseCall).1.error ≠ "") ∧
    ((sampleRegistry2.executeToolCall missingFieldCall).1.success = false ∧
     (sampleRegistry2.executeToolCall missingFieldCall).1.error ≠ "") ∧
    ((sampleRegistry2.executeToolCall apiErrorCall).1.success = false ∧
     (sampleRegistry2.executeToolCall apiErrorCall).1.error = "API error") ∧
    ((toolCallMessage sampleRegistry2 badParseCall).role = "tool" ∧
     (toolCallMessage sampleRegistry2 badParseCall).content =
       "Error: " ++ (dispatchToolCall sampleRegistry2 badParseCall).error ∧
     (toolCallMessage sampleRegistry2 badParseCall).toolCallID = "call-1") ∧
    (∃ response, (handleWithToolsLoop toolCallingChat sampleRegistry2
        (convertToolsForLLM sampleRegistry2.tools) DefaultOrchestratorConfig
        [] [] 0 3).result = .ok response) := by
  have h := C3_dispatch_failures sampleRegistry2 toolCallingChat
    DefaultOrchestratorConfig (convertToolsForLLM sampleRegistry2.tools)
  refine ⟨h.1 badParseCall, ?_, ?_, ?_, ?_, ?_⟩
  · exact h.2.1 badParseCall _ "unexpected end of JSON input" rfl rfl
  · exact h.2.2.1 missingFieldCall _ []
      "required field \x27kind\x27 is missing" rfl rfl rfl
  · exact h.2.2.2.1 apiErrorCall _ [] failingTool "API error" rfl rfl rfl rfl
      rfl (by decide)
  · have h5 := h.2.2.2.2.1 badParseCall (by rfl)
    exact ⟨h5.1, h5.2.1, h5.2.2⟩
  · exact h.2.2.2.2.2.2 (fun req => ⟨_, _, _, rfl, rfl⟩) [] [] 0 3

/-- Auxiliary: against a model that requests at least one tool call on
every round, the loop performs exactly `remaining` completion calls and
returns the partial-result response flagged `reached_max_tool_calls`,
carrying every recorded tool invocation result. -/
theorem loop_always_toolcalls
    (chat : ChatCompletionRequest → Except String ChatResponse)
    (reg : Registry) (llmTools : List ToolDefinition) (cfg : OrchestratorConfig)
    (H : ∀ req, ∃ resp choice rest, chat req = .ok resp ∧
      resp.choices = choice :: rest ∧ choice.message.toolCalls ≠ []) :
    ∀ remaining messages acc iteration,
      (handleWithToolsLoop chat reg llmTools cfg messages acc iteration
        remaining).calls = remaining ∧
      (handleWithToolsLoop chat reg llmTools cfg messages acc iteration
        remaining).result = .ok
        { text := "I was able to process your request partially, but reached the maximum number of tool calls allowed.",
          metadata := [("type", .str "tool_assisted_partial"),
                       ("max_iterations", .int cfg.maxToolCalls),
                       ("tool_results", .results (handleWithToolsLoop chat reg
                          llmTools cfg messages acc iteration remaining).log),
                       ("warning", .str "reached_max_tool_calls")] } := by
  intro remaining
  induction remaining with
  | zero => intro messages acc iteration; exact ⟨rfl, rfl⟩
  | succ n ih =>
    intro messages acc iteration
    obtain ⟨resp, choice, rest, hchat, hchoices, hne⟩ := H
      { messages := messages, tools := llmTools, toolChoice := "auto",
        maxTokens := cfg.maxTokens, temperature := cfg.temperature }
    have hemp : ¬ (choice.message.toolCalls.isEmpty = true) := by
      rcases hc : choice.message.toolCalls with _ | ⟨a, l⟩
      · exact absurd hc hne
      · simp
    unfold handleWithToolsLoop
    simp only [hchat, hchoices]
    rw [if_neg hemp]
    refine ⟨?_, ?_⟩
    · show (handleWithToolsLoop chat reg llmTools cfg _ _ _ n).calls + 1 = n + 1
      rw [(ih _ _ _).1]
    · exact (ih _ _ _).2

/-- C1: with the completion function returning at least one tool call on
every round, `handleWithTools` performs exactly `MaxToolCalls` completion
calls and returns the partial-result response whose metadata carries the
`reached_max_tool_calls` warning, the accumulated tool invocation results
and the non-success type `tool_assisted_partial`; and when the model
answers round 1 with zero tool calls (and at least one round is allowed),
exactly one completion call is made and that message's text is the final
answer. -/
theorem C1_tool_loop_bound
    (chat : ChatCompletionRequest → Except String ChatResponse)
    (reg : Registry) (cfg : OrchestratorConfig)
    (systemPrompt userMessage : String) :
    ((∀ req, ∃ resp choice rest, chat req = .ok resp ∧
        resp.choices = choice :: rest ∧ choice.message.toolCalls ≠ []) →
      (handleWithTools chat reg cfg systemPrompt userMessage).calls =
        cfg.maxToolCalls ∧
      ∃ response, (handleWithTools chat reg cfg systemPrompt
          userMessage).result = .ok response ∧
        response.metadata.lookup "warning" = some (.str "reached_max_tool_calls") ∧
        response.metadata.lookup "tool_results" =
          some (.results (handleWithTools chat reg cfg systemPrompt userMessage).log) ∧
        response.metadata.lookup "type" = some (.str "tool_assisted_partial") ∧
        response.text = "I was able to process your request partially, but reached the maximum number of tool calls allowed.") ∧
    (0 < cfg.maxToolCalls →
      ∀ resp choice rest,
        chat { messages := initialMessages systemPrompt userMessage,
               tools := convertToolsForLLM reg.tools, toolChoice := "auto",
               maxTokens := cfg.maxTokens,
               temperature := cfg.temperature } = .ok resp →
        resp.choices = choice :: rest →
        choice.message.toolCalls = [] →
        (handleWithTools chat reg cfg systemPrompt userMessage).calls = 1 ∧
        ∃ response, (handleWithTools chat reg cfg systemPrompt
            userMessage).result = .ok response ∧
          response.text = choice.message.content ∧
          response.metadata.lookup "type" = some (.str "tool_assisted")) := by
  constructor
  · intro H
    have h := loop_always_toolcalls chat reg (convertToolsForLLM reg.tools) cfg H
      cfg.maxToolCalls (initialMessages systemPrompt userMessage) [] 0
    refine ⟨h.1, ?_⟩
    refine ⟨_, h.2, ?_, ?_, ?_, rfl⟩ <;> rfl
  · intro hmax resp choice rest hchat hchoices hempty
    rcases hcfg : cfg.maxToolCalls with _ | k
    · rw [hcfg] at hmax
      exact absurd hmax (by omega)
    · unfold handleWithTools
      rw [hcfg]
      unfold handleWithToolsLoop
      simp only [hchat, hchoices]
      rw [if_pos (by rw [hempty]; rfl)]
      exact ⟨rfl, _, rfl, rfl, rfl⟩

/-- C1 (witness): the loop bound evaluated with the default configuration
(`MaxToolCalls = 3`): the always-tool-calling model yields exactly 3
completion calls and the `reached_max_tool_calls` partial response; the
immediately-answering model yields exactly 1 completion call and its text. -/
theorem C1_tool_loop_bound_witness :
    ((handleWithTools toolCallingChat sampleRegistry2 DefaultOrchestratorConfig
        "sys" "hello there").calls = 3 ∧
     ∃ response, (handleWithTools toolCallingChat sampleRegistry2
         DefaultOrchestratorConfig "sys" "hello there").result = .ok response ∧
       response.metadata.lookup "warning" = some (.str "reached_max_tool_calls")) ∧
    ((handleWithTools answeringChat sampleRegistry2 DefaultOrchestratorConfig
        "sys" "hello there").calls = 1 ∧
     ∃ response, (handleWithTools answeringChat sampleRegistry2
         DefaultOrchestratorConfig "sys" "hello there").result = .ok response ∧
       response.text = "All done!") := by
  constructor
  · have hA := (C1_tool_loop_bound toolCallingChat sampleRegistry2
      DefaultOrchestratorConfig "sys" "hello there").1
      (fun req => ⟨_, _, _, rfl, rfl, List.cons_ne_nil _ _⟩)
    obtain ⟨hcalls, response, hres, hwarn, _⟩ := hA
    exact ⟨hcalls, response, hres, hwarn⟩
  · have hB := (C1_tool_loop_bound answeringChat sampleRegistry2
      DefaultOrchestratorConfig "sys" "hello there").2 (by decide)
      _ _ _ rfl rfl rfl
    obtain ⟨hcalls, response, hres, htext, _⟩ := hB
    exact ⟨hcalls, response, hres, htext⟩

/-- Auxiliary: containment survives prepending on the left. -/
theorem strContains_append_left (a s f : String) (h : strContains s f = true) :
    strContains (a ++ s) f = true := by
  unfold strContains at h ⊢
  rw [decide_eq_true_eq] at h ⊢
  refine h.trans ?_
  exact ⟨a.data, [], by simp⟩

/-- C4 (counterexample): a memory-retrieval (embedding) failure inside
`Route` does not abort the turn: with the RAG search failing, the turn
still completes normally with the model's answer, so the claim that every
infrastructure failure while processing a turn propagates to the caller is
false at this concrete input. -/
theorem C4_route_swallows_rag_failure :
    ∃ response,
      route IntentKeywords DefaultOrchestratorConfig sampleRegistry2
        answeringChat (.error "failed to generate query embedding: boom")
        0 "2025-01-01 00:00:00 UTC" "tenant1" "+15550100" "hello" =
        .ok response ∧
      response.text = "All done!" := by
  exact ⟨_, rfl, rfl⟩

/-- C4 (amended): completion failures do abort the turn — with a failing
chat provider, `Route` returns an error naming the underlying failure (in
both the conversational and the tool path, the latter given at least one
round is allowed) — but a memory-retrieval failure in `Route` is caught:
the turn proceeds exactly as if the search had returned no hits, and is
not propagated. -/
theorem C4_infra_failure_propagation (order : List (String × List String))
    (cfg : OrchestratorConfig) (reg : Registry)
    (chat : ChatCompletionRequest → Except String ChatResponse)
    (now : Int) (currentTime tenantID userPhone messageText : String) :
    (∀ e, route order cfg reg chat (.error e) now currentTime tenantID
        userPhone messageText =
      route order cfg reg chat (.ok []) now currentTime tenantID userPhone
        messageText) ∧
    (∀ e ragSearch, (∀ req, chat req = .error e) → 0 < cfg.maxToolCalls →
      ∃ m, route order cfg reg chat ragSearch now currentTime tenantID
          userPhone messageText = .error m ∧ strContains m e = true) := by
  constructor
  · intro e
    unfold route
    cases hEn : cfg.enableRAG <;> simp only [hEn] <;> rfl
  · intro e ragSearch hchat hmax
    unfold route
    by_cases hb : requiresTools messageText (detectIntent order messageText) = true
    · rw [if_neg (not_not_intro hb)]
      unfold handleWithTools
      rcases hk : cfg.maxToolCalls with _ | k
      · rw [hk] at hmax
        exact absurd hmax (by omega)
      · unfold handleWithToolsLoop
        dsimp only
        rw [hchat]
        refine ⟨_, rfl, ?_⟩
        exact strContains_extend _ _ _ (strContains_append_left _ _ _
          (strContains_extend _ _ _ (strContains_suffix _ _)))
    · rw [if_pos hb]
      unfold handleConversationalMessage
      dsimp only
      rw [hchat]
      refine ⟨_, rfl, ?_⟩
      exact strContains_extend _ _ _ (strContains_append_left _ _ _
        (strContains_extend _ _ _ (strContains_suffix _ _)))

/-- C4 (witness): the amended propagation behaviour evaluated with a
failing completion provider and with a failed memory search, on concrete
inputs. -/
theorem C4_infra_failure_witness :
    (route IntentKeywords DefaultOrchestratorConfig sampleRegistry2
        failingChat (.error "embedding failed") 0 "t" "tenant1" "+15550100"
        "hello" =
      route IntentKeywords DefaultOrchestratorConfig sampleRegistry2
        failingChat (.ok []) 0 "t" "tenant1" "+15550100" "hello") ∧
    (∃ m, route IntentKeywords DefaultOrchestratorConfig sampleRegistry2
        failingChat (.ok []) 0 "t" "tenant1" "+15550100" "hello" = .error m ∧
      strContains m "completion provider down" = true) := by
  have h := C4_infra_failure_propagation IntentKeywords
    DefaultOrchestratorConfig sampleRegistry2 failingChat 0 "t" "tenant1"
    "+15550100" "hello"
  exact ⟨h.1 "embedding failed",
    h.2 "completion provider down" (.ok []) (fun _ => rfl) (by decide)⟩

/-- Auxiliary: on duplicate-free lists, counting the members of one list
that occur in the other is symmetric (both count the set intersection). -/
theorem filter_contains_length_comm (u v : List String)
    (hu : u.Nodup) (hv : v.Nodup) :
    (u.filter (fun w => v.contains w)).length =
      (v.filter (fun w => u.contains w)).length := by
  have h1 : (u.filter (fun w => v.contains w)).toFinset =
      u.toFinset ∩ v.toFinset := by
    rw [List.toFinset_filter]
    ext w
    simp [List.elem_iff, List.contains]
  have h2 : (v.filter (fun w => u.contains w)).toFinset =
      v.toFinset ∩ u.toFinset := by
    rw [List.toFinset_filter]
    ext w
    simp [List.elem_iff, List.contains]
  rw [← List.toFinset_card_of_nodup (hu.filter _),
      ← List.toFinset_card_of_nodup (hv.filter _), h1, h2, Finset.inter_comm]

/-- Auxiliary: the Jaccard word-set similarity of the source is symmetric
in its two texts. -/
theorem textSimilarity_comm (t1 t2 : String) :
    textSimilarity t1 t2 = textSimilarity t2 t1 := by
  unfold textSimilarity
  by_cases hb : goFields (strToLower t1) = [] ∧ goFields (strToLower t2) = []
  · rw [if_pos hb]
    conv_rhs => rw [if_pos ⟨hb.2, hb.1⟩]
  · rw [if_neg hb]
    conv_rhs => rw [if_neg (fun hc => hb ⟨hc.2, hc.1⟩)]
    by_cases ho : goFields (strToLower t1) = [] ∨ goFields (strToLower t2) = []
    · rw [if_pos ho]
      conv_rhs => rw [if_pos (Or.symm ho)]
    · rw [if_neg ho]
      conv_rhs => rw [if_neg (fun hc => ho (Or.symm hc))]
      have hint := filter_contains_length_comm
        (goFields (strToLower t1)).dedup (goFields (strToLower t2)).dedup
        (List.nodup_dedup _) (List.nodup_dedup _)
      dsimp only
      rw [hint, Nat.add_comm ((goFields (strToLower t1)).dedup.length)]

/-- Auxiliary: the deduplication loop extends its accepted prefix by a
subsequence of the remaining hits. -/
theorem dedupAux_eq_append : ∀ (l u : List MemoryHit),
    ∃ s, dedupAux u l = u ++ s ∧ s.Sublist l := by
  intro l
  induction l with
  | nil => intro u; exact ⟨[], by simp [dedupAux], List.Sublist.refl _⟩
  | cons h t ih =>
    intro u
    unfold dedupAux
    by_cases hd : u.any (fun e => textSimilarity h.text e.text > 9/10) = true
    · rw [if_pos hd]
      obtain ⟨s, hs, hsub⟩ := ih u
      exact ⟨s, hs, hsub.cons h⟩
    · rw [if_neg hd]
      obtain ⟨s, hs, hsub⟩ := ih (u ++ [h])
      exact ⟨h :: s, by rw [hs, List.append_assoc]; rfl, hsub.cons₂ h⟩

/-- Auxiliary: the deduplication loop preserves the invariant that every
accepted hit has similarity at most 0.9 to each earlier-accepted hit. -/
theorem dedupAux_pairwise : ∀ (l u : List MemoryHit),
    u.Pairwise (fun a b => textSimilarity b.text a.text ≤ 9/10) →
    (dedupAux u l).Pairwise (fun a b => textSimilarity b.text a.text ≤ 9/10) := by
  intro l
  induction l with
  | nil => intro u hu; simpa [dedupAux] using hu
  | cons h t ih =>
    intro u hu
    unfold dedupAux
    by_cases hd : u.any (fun e => textSimilarity h.text e.text > 9/10) = true
    · rw [if_pos hd]
      exact ih u hu
    · rw [if_neg hd]
      refine ih (u ++ [h]) ?_
      rw [List.pairwise_append]
      refine ⟨hu, List.pairwise_singleton _ _, ?_⟩
      intro a ha b hb
      rw [List.mem_singleton] at hb
      subst hb
      rw [List.any_eq_true] at hd
      push_neg at hd
      have := hd a ha
      simpa using this

/-- Auxiliary: the accepted prefix survives the deduplication loop. -/
theorem dedupAux_mem_of_mem (l u : List MemoryHit) (x : MemoryHit)
    (hx : x ∈ u) : x ∈ dedupAux u l := by
  obtain ⟨s, hs, _⟩ := dedupAux_eq_append l u
  rw [hs]
  exact List.mem_append_left s hx

/-- Auxiliary: a hit dropped by the deduplication loop has similarity
above 0.9 to some hit of the output. -/
theorem dedupAux_complete : ∀ (l u : List MemoryHit) (x : MemoryHit),
    x ∈ l → x ∉ dedupAux u l →
    ∃ e ∈ dedupAux u l, textSimilarity x.text e.text > 9/10 := by
  intro l
  induction l with
  | nil => intro u x hx; exact absurd hx (List.not_mem_nil x)
  | cons h t ih =>
    intro u x hx hnot
    unfold dedupAux at hnot ⊢
    by_cases hd : u.any (fun e => textSimilarity h.text e.text > 9/10) = true
    · rw [if_pos hd] at hnot ⊢
      rcases List.mem_cons.mp hx with rfl | hxt
      · rw [List.any_eq_true] at hd
        obtain ⟨e, he, hsim⟩ := hd
        refine ⟨e, dedupAux_mem_of_mem t u e he, by simpa using hsim⟩
      · exact ih u x hxt hnot
    · rw [if_neg hd] at hnot ⊢
      rcases List.mem_cons.mp hx with rfl | hxt
      · exact absurd (dedupAux_mem_of_mem t (u ++ [x]) x (by simp)) hnot
      · exact ih (u ++ [h]) x hxt hnot

/-- Auxiliary: deduplication returns a subsequence of its input. -/
theorem deduplicateResults_sublist (hits : List MemoryHit) :
    (deduplicateResults hits).Sublist hits := by
  unfold deduplicateResults
  by_cases hlen : hits.length ≤ 1
  · rw [if_pos hlen]
  · rw [if_neg hlen]
    obtain ⟨s, hs, hsub⟩ := dedupAux_eq_append hits []
    rw [hs]
    simpa using hsub

/-- C8: the deduplication of search hits (1) never reorders hits — the
output is a subsequence of the input; (2) any two retained hits have
word-set Jaccard similarity at most 0.9 (the later against the earlier,
exactly as the source compares them); (3) every dropped hit has similarity
above 0.9 to some retained hit; and (4) of any two near-identical hits
(similarity above 0.9) at most one — the earlier — is retained. -/
theorem C8_deduplication (hits : List MemoryHit) :
    (deduplicateResults hits).Sublist hits ∧
    (deduplicateResults hits).Pairwise
      (fun a b => textSimilarity b.text a.text ≤ 9/10) ∧
    (∀ x ∈ hits, x ∉ deduplicateResults hits →
      ∃ e ∈ deduplicateResults hits, textSimilarity x.text e.text > 9/10) ∧
    (∀ a ∈ hits, ∀ b ∈ hits, textSimilarity a.text b.text > 9/10 →
      a ∈ deduplicateResults hits → b ∈ deduplicateResults hits → a = b) := by
  have hsym : Symmetric (fun a b : MemoryHit =>
      textSimilarity b.text a.text ≤ 9/10) := by
    intro a b hab
    rwa [textSimilarity_comm]
  unfold deduplicateResults
  by_cases hlen : hits.length ≤ 1
  · rw [if_pos hlen]
    rcases hits with _ | ⟨a, _ | ⟨b, t⟩⟩
    · exact ⟨List.Sublist.refl _, List.Pairwise.nil, by simp, by simp⟩
    · refine ⟨List.Sublist.refl _, List.pairwise_singleton _ _, ?_, ?_⟩
      · intro x hx hnot
        exact absurd hx hnot
      · intro x hx y hy _ _ _
        rw [List.mem_singleton] at hx hy
        rw [hx, hy]
    · simp at hlen
  · rw [if_neg hlen]
    obtain ⟨s, hs, hsub⟩ := dedupAux_eq_append hits []
    have hpair := dedupAux_pairwise hits [] List.Pairwise.nil
    refine ⟨?_, hpair, ?_, ?_⟩
    · rw [hs]
      simpa using hsub
    · intro x hx hnot
      exact dedupAux_complete hits [] x hx hnot
    · intro a _ b _ hab hma hmb
      by_contra hne
      have := hpair.forall hsym hma hmb hne
      rw [textSimilarity_comm] at this
      exact absurd hab (not_lt.mpr this)

/-- C8 (witness): two near-identical hits — their similarity exceeds 0.9,
deduplication keeps only the first, and the dropped one indeed has a
retained near-duplicate, via the deduplication theorem. -/
theorem C8_deduplication_witness :
    textSimilarity hitA.text hitB.text > 9/10 ∧
    deduplicateResults [hitA, hitB] = [hitA] ∧
    (∃ e ∈ deduplicateResults [hitA, hitB],
      textSimilarity hitB.text e.text > 9/10) := by
  have hval : textSimilarity hitB.text hitA.text = (3 : ℚ) / 3 := rfl
  have hsim : textSimilarity hitB.text hitA.text > 9/10 := by
    rw [hval]; norm_num
  have hsim2 : textSimilarity hitA.text hitB.text > 9/10 := by
    rw [textSimilarity_comm]; exact hsim
  have h0 : ¬ (([] : List MemoryHit).any
      (fun e => textSimilarity hitA.text e.text > 9/10) = true) := by simp
  have h1 : ([hitA].any (fun e => textSimilarity hitB.text e.text > 9/10)) = true := by
    simp only [List.any_cons, List.any_nil, Bool.or_false, decide_eq_true_eq]
    exact hsim
  have hdedup : deduplicateResults [hitA, hitB] = [hitA] := by
    unfold deduplicateResults
    rw [if_neg (by decide)]
    unfold dedupAux
    rw [if_neg h0]
    unfold dedupAux
    simp only [List.nil_append]
    rw [if_pos h1]
    unfold dedupAux
    rfl
  have hmem : hitB ∈ ([hitA, hitB] : List MemoryHit) := by simp
  have hnot : hitB ∉ deduplicateResults [hitA, hitB] := by
    intro hcon
    rw [hdedup, List.mem_singleton] at hcon
    have := congrArg MemoryHit.id hcon
    simp [hitA, hitB] at this
  exact ⟨hsim2, hdedup,
    (C8_deduplication [hitA, hitB]).2.2.1 hitB hmem hnot⟩

/-- Auxiliary: one application of the query boosts multiplies the score by
a factor between 1 and 69/50 = 1.2 · 1.15 (the recency factor is at most
1.2 and at most one of the task/event factors of 1.15 can fire, since a
hit has a single kind). -/
theorem boostOne_score (pt : String → Option Int) (now : Int) (q : String)
    (h : MemoryHit) : ∃ f : ℚ, (boostOne pt now q h).score = h.score * f ∧
      1 ≤ f ∧ f ≤ 69/50 := by
  unfold boostOne
  dsimp only
  repeat' split
  all_goals
    first
    | (exfalso; simp_all; done)
    | (refine ⟨1, ?_, ?_, ?_⟩ <;> first | (ring; done) | (norm_num; done))
    | (refine ⟨12/10, ?_, ?_, ?_⟩ <;> first | (ring; done) | (norm_num; done))
    | (refine ⟨11/10, ?_, ?_, ?_⟩ <;> first | (ring; done) | (norm_num; done))
    | (refine ⟨115/100, ?_, ?_, ?_⟩ <;> first | (ring; done) | (norm_num; done))
    | (refine ⟨(12/10) * (115/100), ?_, ?_, ?_⟩ <;> first | (ring; done) | (norm_num; done))
    | (refine ⟨(11/10) * (115/100), ?_, ?_, ?_⟩ <;> first | (ring; done) | (norm_num; done))

/-- Auxiliary: every hit returned by the vector-store search scores
`1 - dist(embedding, query)` for some stored row, and clears the
minimum-score floor whenever that floor is positive. -/
theorem pgSearch_score_mem (st : StoreState) (dist : List ℚ → List ℚ → ℚ)
    (tenantID userID : String) (q : List ℚ) (opts : SearchOptions)
    (h : MemoryHit) (hmem : h ∈ pgSearch st dist tenantID userID q opts) :
    (∃ r ∈ st.records, h.score = 1 - dist r.embedding q) ∧
    (0 < opts.minScore → opts.minScore ≤ h.score) := by
  unfold pgSearch at hmem
  dsimp only at hmem
  split at hmem
  all_goals try replace hmem := (List.take_sublist _ _).subset hmem
  all_goals rw [List.mem_mergeSort] at hmem
  all_goals split at hmem
  all_goals
    first
    | (obtain ⟨hscored, hfloor⟩ := List.mem_filter.mp hmem
       obtain ⟨r, hr, hre⟩ := List.mem_map.mp hscored
       rw [decide_eq_true_eq] at hfloor
       exact ⟨⟨r, (List.filter_sublist _).subset hr, by rw [← hre]⟩,
         fun _ => hfloor⟩)
    | (obtain ⟨r, hr, hre⟩ := List.mem_map.mp hmem
       exact ⟨⟨r, (List.filter_sublist _).subset hr, by rw [← hre]⟩,
         fun hpos => absurd hpos (by assumption)⟩)

/-- Auxiliary: every hit surviving post-processing is a stored search hit
whose score was multiplied by a boost factor in [1, 69/50]. -/
theorem postProcess_score_mem (pt : String → Option Int) (now : Int)
    (hits : List MemoryHit) (q : String) (h : MemoryHit)
    (hmem : h ∈ postProcessResults pt now hits q) :
    ∃ g ∈ hits, ∃ f : ℚ, h.score = g.score * f ∧ 1 ≤ f ∧ f ≤ 69/50 := by
  unfold postProcessResults at hmem
  by_cases he : hits.isEmpty = true
  · rw [if_pos he] at hmem
    rw [List.isEmpty_iff] at he
    rw [he] at hmem
    exact absurd hmem (List.not_mem_nil h)
  · rw [if_neg he] at hmem
    unfold applyQueryBoosts at hmem
    obtain ⟨d, hd, hbe⟩ := List.mem_map.mp hmem
    obtain ⟨f, hf, h1, h2⟩ := boostOne_score pt now (strToLower q) d
    exact ⟨d, (deduplicateResults_sublist hits).subset hd, f,
      by rw [← hbe]; exact hf, h1, h2⟩

/-- Auxiliary: full evaluation of the search pipeline on the concrete
store, embedding, distance and options, for the boosted query
"recent task": the single stored task row comes back with its raw score
multiplied by the 1.15 task boost. -/
theorem searchMemory_sample_eval :
    searchMemory sampleEmbed constDist noParse 0 sampleStore
      DefaultPipelineConfig "t1" "u1" "recent task" (some cexOpts)
      = Except.ok [{ cexScored with score := cexScored.score * (115/100) }] := by
  have hpg : pgSearch sampleStore constDist "t1" "u1" [1] cexOpts
      = [cexScored] := by
    have h1 : pgSearch sampleStore constDist "t1" "u1" [1] cexOpts
        = ([cexScored].mergeSort (fun a b => b.score ≤ a.score)).take 5 := rfl
    rw [h1, List.mergeSort_singleton]
    rfl
  have h2 : searchMemory sampleEmbed constDist noParse 0 sampleStore
      DefaultPipelineConfig "t1" "u1" "recent task" (some cexOpts)
      = Except.ok (postProcessResults noParse 0
          (pgSearch sampleStore constDist "t1" "u1" [1] cexOpts)
          "recent task") := rfl
  rw [h2, hpg]
  rfl

/-- C6 counterexample: after post-processing, a returned relevance score
can exceed 1 — the stored task row scores (1 − 1/25) · 1.15 = 1.104 for the
query "recent task". -/
theorem C6_score_above_one_counterexample :
    ∃ hits h, searchMemory sampleEmbed constDist noParse 0 sampleStore
        DefaultPipelineConfig "t1" "u1" "recent task" (some cexOpts)
        = Except.ok hits ∧ h ∈ hits ∧ 1 < h.score := by
  refine ⟨_, _, searchMemory_sample_eval, List.mem_singleton_self _, ?_⟩
  have hs : ({ cexScored with score := cexScored.score * (115/100) } :
      MemoryHit).score = cexScored.score * (115/100) := rfl
  rw [hs]
  norm_num [cexScored, constDist]

/-- C6 (amended): when the distance operator ranges over [0,2] (as the
pgvector cosine distance does), every score returned by SearchMemory over
the vector-native backend lies in [−69/50, 69/50] — the post-processing
boosts multiply the raw score in [−1,1] by a factor in [1, 69/50] — and
whenever the effective minimum score is positive every returned score is at
least that minimum; the claimed interval [0,1] does not survive the
boosts. -/
theorem C6_search_scores
    (embed : List String → Except String (List (List ℚ)))
    (dist : List ℚ → List ℚ → ℚ) (pt : String → Option Int) (now : Int)
    (st : StoreState) (cfg : PipelineConfig) (tenantID userID query : String)
    (opts : Option SearchOptions) (hits : List MemoryHit)
    (hdist : ∀ u v, 0 ≤ dist u v ∧ dist u v ≤ 2)
    (hok : searchMemory embed dist pt now st cfg tenantID userID query opts
      = Except.ok hits)
    (h : MemoryHit) (hmem : h ∈ hits) :
    -(69/50 : ℚ) ≤ h.score ∧ h.score ≤ 69/50 ∧
    ((0 : ℚ) < (opts.getD
        { topK := cfg.defaultTopK, minScore := cfg.defaultMinScore, filter := none }).minScore →
      (opts.getD
        { topK := cfg.defaultTopK, minScore := cfg.defaultMinScore, filter := none }).minScore
        ≤ h.score) := by
  unfold searchMemory at hok
  dsimp only at hok
  cases hemb : embed [query] with
  | error e => rw [hemb] at hok; simp at hok
  | ok embeddings =>
    rw [hemb] at hok
    cases embeddings with
    | nil => simp at hok
    | cons e0 rest =>
      have hh : postProcessResults pt now
          (pgSearch st dist tenantID userID e0 (opts.getD
            { topK := cfg.defaultTopK, minScore := cfg.defaultMinScore, filter := none }))
          query = hits := Except.ok.inj hok
      rw [← hh] at hmem
      obtain ⟨g, hg, f, hsf, hf1, hf2⟩ :=
        postProcess_score_mem pt now _ query h hmem
      obtain ⟨⟨r, hr, hre⟩, hmin⟩ :=
        pgSearch_score_mem st dist tenantID userID e0 _ g hg
      obtain ⟨hd0, hd2⟩ := hdist r.embedding e0
      have hf0 : (0 : ℚ) ≤ f := by linarith
      have hgle : g.score ≤ 1 := by rw [hre]; linarith
      have hgge : (-1 : ℚ) ≤ g.score := by rw [hre]; linarith
      have hup : g.score * f ≤ 1 * f := mul_le_mul_of_nonneg_right hgle hf0
      have hlo : (-1 : ℚ) * f ≤ g.score * f :=
        mul_le_mul_of_nonneg_right hgge hf0
      refine ⟨by rw [hsf]; linarith, by rw [hsf]; linarith, fun hpos => ?_⟩
      have hgm := hmin hpos
      have hg0 : (0 : ℚ) ≤ g.score := le_of_lt (lt_of_lt_of_le hpos hgm)
      have hstep : g.score ≤ g.score * f := le_mul_of_one_le_right hg0 hf1
      rw [hsf]
      linarith

/-- Auxiliary: removing the bindings of one key from a metadata map leaves
lookups of every other key unchanged. -/
theorem lookup_filter_ne (k kp : String) (h : kp ≠ k) :
    ∀ m : List (String × JValue),
      (m.filter (fun kv => kv.1 ≠ k)).lookup kp = m.lookup kp := by
  intro m
  induction m with
  | nil => rfl
  | cons kv rest ih =>
    obtain ⟨a, v⟩ := kv
    by_cases hk : a = k
    · have hcond : ¬ ((decide (a ≠ k)) = true) := by simp [hk]
      rw [List.filter_cons, if_neg hcond, ih]
      have hne : (kp == a) = false :=
        beq_eq_false_iff_ne.mpr (fun he => h (he.trans hk))
      simp only [List.lookup, hne]
    · have hcond : (decide (a ≠ k)) = true := by simp [hk]
      rw [List.filter_cons, if_pos hcond]
      by_cases ha : kp = a
      · have he : (kp == a) = true := by simp [ha]
        simp only [List.lookup, he]
      · have hne : (kp == a) = false := beq_eq_false_iff_ne.mpr ha
        simp only [List.lookup, hne]
        exact ih

/-- Auxiliary: a Go map assignment makes the assigned key look up the new
value. -/
theorem lookup_mapSet_self (m : List (String × JValue)) (k : String)
    (v : JValue) : (mapSet m k v).lookup k = some v := by
  simp [mapSet, List.lookup]

/-- Auxiliary: a Go map assignment leaves every other key's lookup
unchanged. -/
theorem lookup_mapSet_ne (m : List (String × JValue)) (k kp : String)
    (v : JValue) (h : kp ≠ k) :
    (mapSet m k v).lookup kp = m.lookup kp := by
  have hne : (kp == k) = false := beq_eq_false_iff_ne.mpr h
  unfold mapSet
  simp only [List.lookup, hne]
  exact lookup_filter_ne k kp h m

/-- Auxiliary: assigning a chunk embedding does not change the chunk
text. -/
theorem attachEmb_text (ces : List (List ℚ)) (i : Nat) (c : MemoryItem) :
    (attachEmb ces i c).text = c.text := by
  unfold attachEmb
  split <;> rfl

/-- Auxiliary: assigning a chunk embedding leaves every other metadata
key's lookup unchanged. -/
theorem attachEmb_lookup_ne (ces : List (List ℚ)) (i : Nat) (c : MemoryItem)
    (k : String) (h : k ≠ "embedding") :
    (attachEmb ces i c).metadata.lookup k = c.metadata.lookup k := by
  unfold attachEmb
  split
  · exact lookup_mapSet_ne _ _ _ _ h
  · rfl

/-- Auxiliary: after the chunk-embedding pass, an item that already carried
an embedding still carries one. -/
theorem attachEmb_embedded (ces : List (List ℚ)) (i : Nat) (c : MemoryItem)
    (hc : ∃ v, c.metadata.lookup "embedding" = some (JValue.vec v)) :
    ∃ v, (attachEmb ces i c).metadata.lookup "embedding"
      = some (JValue.vec v) := by
  unfold attachEmb
  split
  · exact ⟨_, lookup_mapSet_self _ _ _⟩
  · exact hc

/-- Auxiliary: the enriched item carries the parent embedding. -/
theorem enrich_embedding (item : MemoryItem) (e0 : List ℚ) (nowStr : String) :
    (enrich item e0 nowStr).metadata.lookup "embedding"
      = some (JValue.vec e0) := by
  unfold enrich
  rw [lookup_mapSet_ne _ _ _ _ (by decide), lookup_mapSet_self]

/-- Auxiliary: the text of chunk `j` is the sliding window starting at
`j · stride`. -/
theorem chunkAt_text (cfg : PipelineConfig) (item : MemoryItem)
    (text : List Char) (j : Nat) :
    (chunkAt cfg item text j).text
      = (text.drop (j * strideOf cfg)).take
          (min (j * strideOf cfg + cfg.chunkSize) text.length
            - j * strideOf cfg) := rfl

/-- Auxiliary: every chunk is at most `ChunkSize` characters long. -/
theorem chunkAt_text_length (cfg : PipelineConfig) (item : MemoryItem)
    (text : List Char) (j : Nat) :
    (chunkAt cfg item text j).text.length ≤ cfg.chunkSize := by
  rw [chunkAt_text]
  simp only [List.length_take, List.length_drop]
  omega

/-- Auxiliary: the bookkeeping metadata written into chunk `j`. -/
theorem chunkAt_bookkeeping (cfg : PipelineConfig) (item : MemoryItem)
    (text : List Char) (j : Nat) :
    (chunkAt cfg item text j).metadata.lookup "chunk_index"
        = some (JValue.int j) ∧
    (chunkAt cfg item text j).metadata.lookup "chunk_count"
        = some (JValue.int ((text.length + cfg.chunkSize - 1) / cfg.chunkSize)) ∧
    (chunkAt cfg item text j).metadata.lookup "parent_text_length"
        = some (JValue.int text.length) := by
  unfold chunkAt mkChunk
  dsimp only
  refine ⟨?_, ?_, ?_⟩
  · rw [lookup_mapSet_ne _ _ _ _ (by decide), lookup_mapSet_ne _ _ _ _ (by decide),
      lookup_mapSet_self]
  · rw [lookup_mapSet_ne _ _ _ _ (by decide), lookup_mapSet_self]
  · rw [lookup_mapSet_self]

/-- Auxiliary: a chunk's lookup of a key other than the three bookkeeping
keys passes through to the parent item's metadata. -/
theorem chunkAt_lookup_other (cfg : PipelineConfig) (item : MemoryItem)
    (text : List Char) (j : Nat) (k : String) (h1 : k ≠ "chunk_index")
    (h2 : k ≠ "chunk_count") (h3 : k ≠ "parent_text_length") :
    (chunkAt cfg item text j).metadata.lookup k = item.metadata.lookup k := by
  unfold chunkAt mkChunk
  dsimp only
  rw [lookup_mapSet_ne _ _ _ _ h3, lookup_mapSet_ne _ _ _ _ h2,
    lookup_mapSet_ne _ _ _ _ h1]

/-- Auxiliary: consecutive full chunks share exactly `ChunkOverlap`
characters — the first `ChunkOverlap` characters of chunk `j+1` are the
characters of chunk `j` past the stride. -/
theorem chunkAt_overlap (cfg : PipelineConfig) (item : MemoryItem)
    (text : List Char) (j : Nat) (hov : cfg.chunkOverlap < cfg.chunkSize)
    (hfull : j * strideOf cfg + cfg.chunkSize < text.length) :
    (chunkAt cfg item text (j + 1)).text.take cfg.chunkOverlap
      = (chunkAt cfg item text j).text.drop (strideOf cfg) := by
  have hst : strideOf cfg + cfg.chunkOverlap = cfg.chunkSize := by
    unfold strideOf
    omega
  have hm0 : min (j * strideOf cfg + cfg.chunkSize) text.length
      = j * strideOf cfg + cfg.chunkSize := by omega
  rw [chunkAt_text, chunkAt_text, hm0, Nat.succ_mul]
  rw [List.take_take, List.drop_take, List.drop_drop]
  have h1 : min cfg.chunkOverlap
      (min (j * strideOf cfg + strideOf cfg + cfg.chunkSize) text.length
        - (j * strideOf cfg + strideOf cfg)) = cfg.chunkOverlap := by
    omega
  have h2 : j * strideOf cfg + cfg.chunkSize - j * strideOf cfg - strideOf cfg
      = cfg.chunkOverlap := by omega
  rw [h1, h2]

/-- Auxiliary: `Upsert` on a list of items that all carry an embedding
appends one row per item (ids counting up from the store counter) and
returns the consecutive ids. -/
theorem pgUpsert_embedded (tenantID userID : String) (now : Int) :
    ∀ (items : List MemoryItem) (st : StoreState),
      (∀ it ∈ items, ∃ v, it.metadata.lookup "embedding"
        = some (JValue.vec v)) →
      pgUpsert st tenantID userID items now
        = ({ records := st.records
              ++ upsRecords tenantID userID now st.nextId items,
             nextId := st.nextId + items.length },
           upsIds st.nextId items) := by
  intro items
  induction items with
  | nil =>
    intro st _
    simp [pgUpsert, upsRecords, upsIds]
  | cons it rest ih =>
    intro st hemb
    obtain ⟨v, hv⟩ := hemb it (by simp)
    have hv2 : embVec it = v := by
      unfold embVec
      rw [hv]
    have h1 : pgUpsertOne st tenantID userID it now
        = ({ records := st.records
               ++ [{ id := st.nextId, tenantID := tenantID, userID := userID,
                     kind := it.kind, text := it.text, embedding := embVec it,
                     metadata := it.metadata.filter
                       (fun kv => kv.1 ≠ "embedding"),
                     createdAt := now, updatedAt := now }],
             nextId := st.nextId + 1 }, [st.nextId]) := by
      unfold pgUpsertOne
      rw [hv, hv2]
    unfold pgUpsert
    rw [h1]
    dsimp only
    rw [ih _ (fun x hx => hemb x (by simp [hx]))]
    dsimp only
    rw [List.append_assoc]
    have hlen : st.nextId + 1 + rest.length = st.nextId + (rest.length + 1) := by
      omega
    rw [hlen]
    rfl

/-- Auxiliary: `Upsert` writes one row per embedded item. -/
theorem upsRecords_length (tenantID userID : String) (now : Int) :
    ∀ (items : List MemoryItem) (base : Nat),
      (upsRecords tenantID userID now base items).length = items.length := by
  intro items
  induction items with
  | nil => intro base; rfl
  | cons it rest ih =>
    intro base
    unfold upsRecords
    simp [ih]

/-- Auxiliary: the `j`-th row written by `Upsert` for a list of embedded
items: id `base + j`, and the text, kind and embedding-stripped metadata of
the `j`-th item. -/
theorem upsRecords_get (tenantID userID : String) (now : Int) :
    ∀ (items : List MemoryItem) (base j : Nat) (hj : j < items.length)
      (hj2 : j < (upsRecords tenantID userID now base items).length),
      (upsRecords tenantID userID now base items).get ⟨j, hj2⟩
        = { id := base + j, tenantID := tenantID, userID := userID,
            kind := (items.get ⟨j, hj⟩).kind,
            text := (items.get ⟨j, hj⟩).text,
            embedding := embVec (items.get ⟨j, hj⟩),
            metadata := (items.get ⟨j, hj⟩).metadata.filter
              (fun kv => kv.1 ≠ "embedding"),
            createdAt := now, updatedAt := now } := by
  intro items
  induction items with
  | nil => intro base j hj; simp at hj
  | cons it rest ih =>
    intro base j hj hj2
    cases j with
    | zero => simp [upsRecords]
    | succ j0 =>
      have hj0 : j0 < rest.length := by
        simpa using hj
      have hj02 : j0 < (upsRecords tenantID userID now (base + 1) rest).length := by
        rw [upsRecords_length]
        exact hj0
      have hstep : (upsRecords tenantID userID now base (it :: rest)).get
            ⟨j0 + 1, hj2⟩
          = (upsRecords tenantID userID now (base + 1) rest).get ⟨j0, hj02⟩ := rfl
      rw [hstep, ih (base + 1) j0 hj0 hj02]
      have harith : base + 1 + j0 = base + (j0 + 1) := by omega
      rw [harith]
      rfl

/-- Auxiliary: closed form of the chunk loop under a positive stride —
starting at window `j`, it appends the windows `j, j+1, …` until the first
window whose end reaches the end of the text, which is included and is the
last chunk. -/
theorem chunkLoop_spec (cfg : PipelineConfig) (item : MemoryItem)
    (text : List Char) (hov : cfg.chunkOverlap < cfg.chunkSize) :
    ∀ (fuel j : Nat) (acc : List MemoryItem),
      text.length - j * strideOf cfg < fuel →
      j * strideOf cfg < text.length →
      ∃ n, 1 ≤ n ∧
        chunkLoopGo cfg item text acc j (Nat.cast (j * strideOf cfg) : Int) fuel
          = some (ChunkOutcome.ok
              (acc ++ (List.range n).map
                (fun k => chunkAt cfg item text (j + k)))) ∧
        (∀ k, k + 1 < n →
          (j + k) * strideOf cfg + cfg.chunkSize < text.length) ∧
        text.length ≤ (j + (n - 1)) * strideOf cfg + cfg.chunkSize := by
  intro fuel
  induction fuel with
  | zero => intro j acc h hj; omega
  | succ m ih =>
    intro j acc h hj
    have hs : (Nat.cast (j * strideOf cfg) : Int) < (text.length : Int) := by
      omega
    have hneg : ¬ ((Nat.cast (j * strideOf cfg) : Int) < 0) := by omega
    unfold chunkLoopGo
    rw [if_pos hs, if_neg hneg]
    dsimp only
    have htn : (Nat.cast (j * strideOf cfg) : Int).toNat = j * strideOf cfg := by
      omega
    rw [htn]
    by_cases hend : text.length
        ≤ min (j * strideOf cfg + cfg.chunkSize) text.length
    · rw [if_pos hend]
      refine ⟨1, le_refl 1, rfl, fun k hk => by omega, ?_⟩
      have h0 : j + (1 - 1) = j := rfl
      rw [h0]
      omega
    · rw [if_neg hend]
      have hlt : j * strideOf cfg + cfg.chunkSize < text.length := by omega
      have hsm : (j + 1) * strideOf cfg = j * strideOf cfg + strideOf cfg :=
        Nat.succ_mul j (strideOf cfg)
      have hst : strideOf cfg + cfg.chunkOverlap = cfg.chunkSize := by
        unfold strideOf
        omega
      have hcast : (Nat.cast (j * strideOf cfg) : Int) + (cfg.chunkSize : Int)
          - (cfg.chunkOverlap : Int)
          = (Nat.cast ((j + 1) * strideOf cfg) : Int) := by omega
      rw [hcast]
      have hjlt : (j + 1) * strideOf cfg < text.length := by omega
      have hfuel : text.length - (j + 1) * strideOf cfg < m := by omega
      obtain ⟨n, hn1, heq, hfull, hlast⟩ := ih (j + 1)
        (acc ++ [mkChunk cfg item text (j * strideOf cfg)
          (min (j * strideOf cfg + cfg.chunkSize) text.length) j]) hfuel hjlt
      rw [heq]
      have hlist : (acc ++ [mkChunk cfg item text (j * strideOf cfg)
            (min (j * strideOf cfg + cfg.chunkSize) text.length) j])
            ++ (List.range n).map (fun k => chunkAt cfg item text (j + 1 + k))
          = acc ++ (List.range (n + 1)).map
              (fun k => chunkAt cfg item text (j + k)) := by
        have htail : (List.range n).map
              (fun k => chunkAt cfg item text (j + 1 + k))
            = (List.range n).map
                ((fun k => chunkAt cfg item text (j + k)) ∘ Nat.succ) := by
          apply List.map_congr_left
          intro a _
          simp only [Function.comp_apply, Nat.succ_eq_add_one]
          have hja : j + 1 + a = j + (a + 1) := by omega
          rw [hja]
        rw [List.append_assoc, List.singleton_append, htail,
          List.range_succ_eq_map, List.map_cons, List.map_map]
        rfl
      rw [hlist]
      refine ⟨n + 1, by omega, rfl, ?_, ?_⟩
      · intro k hk
        cases k with
        | zero => simpa using hlt
        | succ k0 =>
          have hh := hfull k0 (by omega)
          have harith : j + (k0 + 1) = j + 1 + k0 := by omega
          rw [harith]
          exact hh
      · have harith : j + (n + 1 - 1) = j + 1 + (n - 1) := by omega
        rw [harith]
        exact hlast

/-- Auxiliary: closed form of `chunkMemoryItem` under a positive stride on
text longer than a chunk: the chunks are exactly the windows `0, …, n-1`,
every non-final window ends strictly inside the text and the final window
reaches its end. -/
theorem chunkMemoryItem_spec (cfg : PipelineConfig) (item : MemoryItem)
    (hov : cfg.chunkOverlap < cfg.chunkSize)
    (hlong : cfg.chunkSize < item.text.length) :
    ∃ n, 1 ≤ n ∧
      chunkMemoryItem cfg item
        = (List.range n).map (chunkAt cfg item item.text) ∧
      (∀ k, k + 1 < n →
        k * strideOf cfg + cfg.chunkSize < item.text.length) ∧
      item.text.length ≤ (n - 1) * strideOf cfg + cfg.chunkSize := by
  obtain ⟨n, hn1, heq, hfull, hlast⟩ := chunkLoop_spec cfg item item.text hov
    (item.text.length + 1) 0 []
    (by simp only [Nat.zero_mul]; omega)
    (by simp only [Nat.zero_mul]; omega)
  refine ⟨n, hn1, ?_, ?_, ?_⟩
  · unfold chunkMemoryItem
    rw [if_neg (by omega : ¬ (item.text.length ≤ cfg.chunkSize))]
    have hi : (Nat.cast (0 * strideOf cfg) : Int) = 0 := by simp
    rw [hi] at heq
    rw [heq]
    simp only [List.nil_append]
    apply List.map_congr_left
    intro k _
    simp
  · intro k hk
    have hh := hfull k hk
    have harith : 0 + k = k := by omega
    rw [harith] at hh
    exact hh
  · have harith : 0 + (n - 1) = n - 1 := by omega
    rw [harith] at hlast
    exact hlast

/-- Auxiliary: with a positive stride, every iteration of the chunk loop
advances the window start, so from start `s` any fuel exceeding
`text.length - s` reaches a normal exit. -/
theorem chunkLoop_terminates (cfg : PipelineConfig) (item : MemoryItem)
    (text : List Char) (hov : cfg.chunkOverlap < cfg.chunkSize) :
    ∀ (fuel s : Nat) (chunks : List MemoryItem) (idx : Nat),
      text.length - s < fuel →
      ∃ cs, chunkLoopGo cfg item text chunks idx (s : Int) fuel
        = some (ChunkOutcome.ok cs) := by
  intro fuel
  induction fuel with
  | zero => intro s chunks idx h; omega
  | succ n ih =>
    intro s chunks idx h
    by_cases hs : ((s : Int) < (text.length : Int))
    · have hneg : ¬ ((s : Int) < 0) := not_lt.mpr (Int.natCast_nonneg s)
      unfold chunkLoopGo
      rw [if_pos hs, if_neg hneg]
      dsimp only
      by_cases hend : text.length ≤ min ((s : Int).toNat + cfg.chunkSize) text.length
      · rw [if_pos hend]
        exact ⟨_, rfl⟩
      · rw [if_neg hend]
        have hcast : (s : Int) + (cfg.chunkSize : Int) - (cfg.chunkOverlap : Int)
            = ((s + (cfg.chunkSize - cfg.chunkOverlap) : Nat) : Int) := by omega
        rw [hcast]
        apply ih
        have hsn : ((s : Int)).toNat = s := by simp
        rw [hsn] at hend
        omega
    · unfold chunkLoopGo
      rw [if_neg hs]
      exact ⟨_, rfl⟩

/-- Auxiliary: with a zero stride (`ChunkOverlap = ChunkSize`) and text
longer than a chunk, the loop index never moves and the loop never
finishes: the fuel-indexed evaluation yields `none` at every fuel. -/
theorem chunkLoop_stuck (cfg : PipelineConfig) (item : MemoryItem)
    (text : List Char) (hoe : cfg.chunkOverlap = cfg.chunkSize)
    (hlen : cfg.chunkSize < text.length) :
    ∀ (fuel : Nat) (chunks : List MemoryItem) (idx : Nat),
      chunkLoopGo cfg item text chunks idx 0 fuel = none := by
  intro fuel
  induction fuel with
  | zero => intro chunks idx; rfl
  | succ n ih =>
    intro chunks idx
    unfold chunkLoopGo
    have hl : (0 : Int) < (text.length : Int) := by
      have hp : 0 < text.length := by omega
      exact_mod_cast hp
    rw [if_pos hl, if_neg (lt_irrefl (0 : Int))]
    dsimp only
    have hmin : min ((0 : Int).toNat + cfg.chunkSize) text.length
        = cfg.chunkSize := by
      simp only [Int.toNat_zero, Nat.zero_add]
      omega
    rw [hmin]
    rw [if_neg (by omega : ¬ (text.length ≤ cfg.chunkSize))]
    have hzero : (0 : Int) + (cfg.chunkSize : Int) - (cfg.chunkOverlap : Int)
        = 0 := by omega
    rw [hzero]
    exact ih _ _

/-- Auxiliary: with a negative stride (`ChunkOverlap > ChunkSize`) and text
longer than a chunk, the second iteration reaches a negative index and the
loop terminates abnormally with the Go slice panic. -/
theorem chunkLoop_panics (cfg : PipelineConfig) (item : MemoryItem)
    (text : List Char) (hgt : cfg.chunkSize < cfg.chunkOverlap)
    (hsz : 0 < cfg.chunkSize) (hlen : cfg.chunkSize < text.length) :
    ∀ (fuel : Nat) (chunks : List MemoryItem) (idx : Nat), 2 ≤ fuel →
      chunkLoopGo cfg item text chunks idx 0 fuel
        = some ChunkOutcome.panic := by
  intro fuel chunks idx hfuel
  obtain ⟨n, rfl⟩ : ∃ n, fuel = n + 1 + 1 := ⟨fuel - 2, by omega⟩
  unfold chunkLoopGo
  have hl : (0 : Int) < (text.length : Int) := by
    have hp : 0 < text.length := by omega
    exact_mod_cast hp
  rw [if_pos hl, if_neg (lt_irrefl (0 : Int))]
  dsimp only
  have hmin : min ((0 : Int).toNat + cfg.chunkSize) text.length
      = cfg.chunkSize := by
    simp only [Int.toNat_zero, Nat.zero_add]
    omega
  rw [hmin]
  rw [if_neg (by omega : ¬ (text.length ≤ cfg.chunkSize))]
  unfold chunkLoopGo
  have hi : (0 : Int) + (cfg.chunkSize : Int) - (cfg.chunkOverlap : Int)
      < (text.length : Int) := by omega
  have hineg : (0 : Int) + (cfg.chunkSize : Int) - (cfg.chunkOverlap : Int)
      < 0 := by omega
  rw [if_pos hi, if_pos hineg]

/-- C10 counterexample: with ChunkOverlap = 3 > ChunkSize = 2 on a
4-character text the loop does not run forever — it terminates abnormally
(the Go slice panic) on its second iteration, refuting the claim that the
loop does not terminate whenever `ChunkOverlap ≥ ChunkSize`. -/
theorem C10_overlap_panic_counterexample :
    chunkLoopGo cexChunkCfg item7 item7.text [] 0 0 2
      = some ChunkOutcome.panic := rfl

/-- C10 (amended): with `ChunkOverlap < ChunkSize` the `chunkMemoryItem`
loop terminates normally within fuel `len+1` (the positive stride advances
the index each round); with `ChunkOverlap = ChunkSize > 0` and text longer
than a chunk it never terminates (zero stride, `none` at every fuel); but
with `ChunkOverlap > ChunkSize > 0` and text longer than a chunk it
terminates abnormally — the index goes negative on the second iteration and
the Go slice expression panics. -/
theorem C10_chunk_termination (cfg : PipelineConfig) (item : MemoryItem) :
    (cfg.chunkOverlap < cfg.chunkSize →
      ∃ cs, chunkLoopGo cfg item item.text [] 0 0 (item.text.length + 1)
        = some (ChunkOutcome.ok cs)) ∧
    (cfg.chunkOverlap = cfg.chunkSize → 0 < cfg.chunkSize →
      cfg.chunkSize < item.text.length →
      ∀ fuel, chunkLoopGo cfg item item.text [] 0 0 fuel = none) ∧
    (cfg.chunkSize < cfg.chunkOverlap → 0 < cfg.chunkSize →
      cfg.chunkSize < item.text.length →
      ∀ fuel, 2 ≤ fuel →
        chunkLoopGo cfg item item.text [] 0 0 fuel
          = some ChunkOutcome.panic) := by
  refine ⟨fun hov => ?_, fun hoe _ hlen fuel => ?_, fun hgt hsz hlen fuel hf => ?_⟩
  · have h := chunkLoop_terminates cfg item item.text hov
      (item.text.length + 1) 0 [] 0 (by omega)
    simpa using h
  · exact chunkLoop_stuck cfg item item.text hoe hlen fuel [] 0
  · exact chunkLoop_panics cfg item item.text hgt hsz hlen fuel [] 0 hf

/-- C10 witness: the three regimes evaluated on concrete configurations —
stride 1 terminates normally, stride 0 yields `none` at fuel 5, stride −1
panics at fuel 7. -/
theorem C10_chunk_termination_witness :
    (∃ cs, chunkLoopGo cfg7 item7 item7.text [] 0 0 (item7.text.length + 1)
      = some (ChunkOutcome.ok cs)) ∧
    chunkLoopGo eqChunkCfg item7 item7.text [] 0 0 5 = none ∧
    chunkLoopGo cexChunkCfg item7 item7.text [] 0 0 7
      = some ChunkOutcome.panic := by
  refine ⟨(C10_chunk_termination cfg7 item7).1 (by decide),
    (C10_chunk_termination eqChunkCfg item7).2.1 rfl (by decide) (by decide) 5,
    (C10_chunk_termination cexChunkCfg item7).2.2 (by decide) (by decide)
      (by decide) 7 (by decide)⟩

/-- C7: with a positive stride (ChunkOverlap < ChunkSize), StoreMemory
fails when the embedding call errors or returns no vectors; and on a text
longer than ChunkSize it splits the enriched item into the sliding windows
starting at multiples of the stride — each chunk at most ChunkSize
characters, consecutive chunks sharing exactly ChunkOverlap characters,
chunk j carrying chunk_index j (strictly increasing from 0), chunk_count
and parent_text_length — upserts each chunk as an independent record with
consecutive fresh ids, and returns the id of the first stored record. -/
theorem C7_store_memory_chunks
    (embed : List String → Except String (List (List ℚ)))
    (st : StoreState) (cfg : PipelineConfig) (tenantID userID : String)
    (item : MemoryItem) (nowStr : String) (now : Int)
    (hov : cfg.chunkOverlap < cfg.chunkSize) :
    (∀ e, embed [String.mk item.text] = Except.error e →
      ∃ msg, storeMemory embed st cfg tenantID userID item nowStr now
        = Except.error msg) ∧
    (embed [String.mk item.text] = Except.ok [] →
      storeMemory embed st cfg tenantID userID item nowStr now
        = Except.error "no embeddings generated") ∧
    (∀ e0 rest ces, embed [String.mk item.text] = Except.ok (e0 :: rest) →
      cfg.chunkSize < item.text.length →
      embed ((chunkMemoryItem cfg (enrich item e0 nowStr)).map
          (fun c => String.mk c.text)) = Except.ok ces →
      ∃ n, 1 ≤ n ∧
        chunkMemoryItem cfg (enrich item e0 nowStr)
          = (List.range n).map
              (chunkAt cfg (enrich item e0 nowStr) item.text) ∧
        (∀ j, j < n →
          (chunkAt cfg (enrich item e0 nowStr) item.text j).text.length
              ≤ cfg.chunkSize ∧
          (chunkAt cfg (enrich item e0 nowStr) item.text j).metadata.lookup
              "chunk_index" = some (JValue.int j) ∧
          (chunkAt cfg (enrich item e0 nowStr) item.text j).metadata.lookup
              "chunk_count" = some (JValue.int
                ((item.text.length + cfg.chunkSize - 1) / cfg.chunkSize)) ∧
          (chunkAt cfg (enrich item e0 nowStr) item.text j).metadata.lookup
              "parent_text_length" = some (JValue.int item.text.length)) ∧
        (∀ j, j + 1 < n →
          (chunkAt cfg (enrich item e0 nowStr) item.text (j + 1)).text.take
              cfg.chunkOverlap
            = (chunkAt cfg (enrich item e0 nowStr) item.text j).text.drop
                (strideOf cfg)) ∧
        ∃ newRecs, storeMemory embed st cfg tenantID userID item nowStr now
            = Except.ok
                ({ records := st.records ++ newRecs,
                   nextId := st.nextId + n }, st.nextId) ∧
          newRecs.length = n ∧
          (∀ j, j < n → ∃ (hj : j < newRecs.length),
            (newRecs.get ⟨j, hj⟩).id = st.nextId + j ∧
            (newRecs.get ⟨j, hj⟩).text
              = (chunkAt cfg (enrich item e0 nowStr) item.text j).text ∧
            (newRecs.get ⟨j, hj⟩).metadata.lookup "chunk_index"
              = some (JValue.int j) ∧
            (newRecs.get ⟨j, hj⟩).metadata.lookup "parent_text_length"
              = some (JValue.int item.text.length))) := by
  refine ⟨?_, ?_, ?_⟩
  · intro e he
    refine ⟨toString "failed to generate embedding: " ++ toString e
      ++ toString "", ?_⟩
    unfold storeMemory
    rw [he]
    rfl
  · intro he
    unfold storeMemory
    rw [he]
    rfl
  · intro e0 rest ces hemb1 hlong hemb2
    have hlong1 : cfg.chunkSize < (enrich item e0 nowStr).text.length := hlong
    obtain ⟨n, hn1, hchunks0, hfull0, hlast0⟩ :=
      chunkMemoryItem_spec cfg (enrich item e0 nowStr) hov hlong1
    have htext : (enrich item e0 nowStr).text = item.text := rfl
    rw [htext] at hchunks0 hfull0 hlast0
    have hembAll : ∀ it ∈ (chunkMemoryItem cfg
          (enrich item e0 nowStr)).mapIdx (attachEmb ces),
        ∃ v, it.metadata.lookup "embedding" = some (JValue.vec v) := by
      have hC : ∀ c ∈ chunkMemoryItem cfg (enrich item e0 nowStr),
          ∃ v, c.metadata.lookup "embedding" = some (JValue.vec v) := by
        intro c hc
        rw [hchunks0] at hc
        obtain ⟨k, hk, hck⟩ := List.mem_map.mp hc
        refine ⟨e0, ?_⟩
        rw [← hck, chunkAt_lookup_other _ _ _ _ _ (by decide) (by decide)
          (by decide), enrich_embedding]
      intro it hit
      rw [List.mem_iff_getElem] at hit
      obtain ⟨i, hi, hih⟩ := hit
      rw [List.getElem_mapIdx] at hih
      rw [← hih]
      exact attachEmb_embedded _ _ _ (hC _ (List.getElem_mem _))
    have hupsert := pgUpsert_embedded tenantID userID now
      ((chunkMemoryItem cfg (enrich item e0 nowStr)).mapIdx (attachEmb ces))
      st hembAll
    have hlenItems : ((chunkMemoryItem cfg
          (enrich item e0 nowStr)).mapIdx (attachEmb ces)).length = n := by
      rw [List.length_mapIdx, hchunks0]
      simp
    obtain ⟨ids0, hids⟩ : ∃ ids0, upsIds st.nextId
        ((chunkMemoryItem cfg (enrich item e0 nowStr)).mapIdx
          (attachEmb ces)) = st.nextId :: ids0 := by
      obtain ⟨n0, hn0⟩ : ∃ n0, n = n0 + 1 := ⟨n - 1, by omega⟩
      rw [hchunks0, hn0, List.range_succ_eq_map, List.map_cons,
        List.mapIdx_cons]
      exact ⟨_, rfl⟩
    have hitem : ∀ j (hjI : j < ((chunkMemoryItem cfg
          (enrich item e0 nowStr)).mapIdx (attachEmb ces)).length),
        ((chunkMemoryItem cfg (enrich item e0 nowStr)).mapIdx
          (attachEmb ces)).get ⟨j, hjI⟩
          = attachEmb ces j (chunkAt cfg (enrich item e0 nowStr)
              item.text j) := by
      intro j hjI
      rw [List.get_eq_getElem, List.getElem_mapIdx]
      congr 1
      simp only [hchunks0, List.getElem_map, List.getElem_range]
    refine ⟨n, hn1, hchunks0, ?_, ?_, upsRecords tenantID userID now st.nextId
      ((chunkMemoryItem cfg (enrich item e0 nowStr)).mapIdx (attachEmb ces)),
      ?_, ?_, ?_⟩
    · intro j hjn
      exact ⟨chunkAt_text_length cfg (enrich item e0 nowStr) item.text j,
        (chunkAt_bookkeeping cfg (enrich item e0 nowStr) item.text j).1,
        (chunkAt_bookkeeping cfg (enrich item e0 nowStr) item.text j).2.1,
        (chunkAt_bookkeeping cfg (enrich item e0 nowStr) item.text j).2.2⟩
    · intro j hj1
      exact chunkAt_overlap cfg (enrich item e0 nowStr) item.text j hov
        (hfull0 j hj1)
    · unfold storeMemory
      rw [hemb1]
      dsimp only
      rw [if_pos hlong1, hemb2]
      dsimp only
      rw [pure_bind, hupsert]
      dsimp only
      rw [hids, hlenItems]
      rfl
    · rw [upsRecords_length, hlenItems]
    · intro j hjn
      have hjI : j < ((chunkMemoryItem cfg
          (enrich item e0 nowStr)).mapIdx (attachEmb ces)).length := by
        rw [hlenItems]
        exact hjn
      have hj2 : j < (upsRecords tenantID userID now st.nextId
          ((chunkMemoryItem cfg (enrich item e0 nowStr)).mapIdx
            (attachEmb ces))).length := by
        rw [upsRecords_length]
        exact hjI
      have hrec := upsRecords_get tenantID userID now
        ((chunkMemoryItem cfg (enrich item e0 nowStr)).mapIdx (attachEmb ces))
        st.nextId j hjI hj2
      refine ⟨hj2, ?_, ?_, ?_, ?_⟩
      · rw [hrec]
      · rw [hrec]
        dsimp only
        rw [hitem j hjI, attachEmb_text]
      · rw [hrec]
        dsimp only
        rw [lookup_filter_ne "embedding" "chunk_index" (by decide),
          hitem j hjI, attachEmb_lookup_ne ces j _ "chunk_index" (by decide)]
        exact (chunkAt_bookkeeping cfg (enrich item e0 nowStr) item.text j).1
      · rw [hrec]
        dsimp only
        rw [lookup_filter_ne "embedding" "parent_text_length" (by decide),
          hitem j hjI,
          attachEmb_lookup_ne ces j _ "parent_text_length" (by decide)]
        exact (chunkAt_bookkeeping cfg (enrich item e0 nowStr) item.text j).2.2

/-- C7 witness: a concrete run — chunk size 2, overlap 1, text "abcd" —
stores the chunks and returns the first fresh id. -/
theorem C7_store_memory_chunks_witness :
    ∃ n newRecs, 1 ≤ n ∧
      storeMemory sampleEmbed sampleStore cfg7 "t1" "u1" item7 "now" 0
        = Except.ok
            ({ records := sampleStore.records ++ newRecs,
               nextId := sampleStore.nextId + n }, sampleStore.nextId) ∧
      newRecs.length = n := by
  obtain ⟨n, hn1, _, _, _, newRecs, hstore, hlen, _⟩ :=
    (C7_store_memory_chunks sampleEmbed sampleStore cfg7 "t1" "u1" item7
      "now" 0 (by decide)).2.2 [1] [] [[1]] rfl (by decide) rfl
  exact ⟨n, newRecs, hn1, hstore, hlen⟩

/-- C6 witness: the amended bounds hold on the concrete pipeline
evaluation. -/
theorem C6_search_scores_witness :
    ∃ hits h, searchMemory sampleEmbed constDist noParse 0 sampleStore
        DefaultPipelineConfig "t1" "u1" "recent task" (some cexOpts)
        = Except.ok hits ∧ h ∈ hits ∧
        -(69/50 : ℚ) ≤ h.score ∧ h.score ≤ 69/50 := by
  refine ⟨_, _, searchMemory_sample_eval, List.mem_singleton_self _, ?_, ?_⟩
  · exact (C6_search_scores sampleEmbed constDist noParse 0 sampleStore
      DefaultPipelineConfig "t1" "u1" "recent task" (some cexOpts) _
      (fun u v => by norm_num [constDist]) searchMemory_sample_eval _
      (List.mem_singleton_self _)).1
  · exact (C6_search_scores sampleEmbed constDist noParse 0 sampleStore
      DefaultPipelineConfig "t1" "u1" "recent task" (some cexOpts) _
      (fun u v => by norm_num [constDist]) searchMemory_sample_eval _
      (List.mem_singleton_self _)).2.1

end PA
